import Mathlib

/-!
# Verification of `Compiler/astree.c`

A shallow embedding of the abstract-syntax-tree module of the compiler
(`newASTNode`, `freeASTree`, `printASTree`, `grabStrings`,
`genCodeFromASTree`) together with theorems about it.

Conventions of the embedding

* A C pointer `ASTNode*` is a value of `ASTNode`: `ASTNode.null` is `NULL`,
  `ASTNode.node d c0 c1 c2 nx` is a pointer to a node whose scalar fields are
  `d`, whose `child[0..2]` are `c0 c1 c2` and whose `next` is `nx`.
  `ASTNUMCHILDREN` is 3.
* C `int` values are `Int`; every arithmetic operation of the source on an
  `int` is followed by `wrap32` (two's-complement wrap-around to 32 bits).
* `fprintf(out, ...)` appends to a list of `Asm` items; `Asm.render` gives the
  exact text of each item, so the text written to `out` is `renderAll`.
* The globals `lastStringIndex`, `savedStrings`, `labelCount` and the static
  `lid` of `getUniqueLabelID` are the fields of `GenState`, passed explicitly.
-/

namespace Astree

/-! ## Data model (`astree.h`) -/

/-- Node kinds of `ASTNodeType`; `AST_UNKNOWN c` stands for any other value of the enum's
underlying integer. -/
inductive ASTNodeType where
  | AST_PROGRAM | AST_VARDECL | AST_FUNCTION | AST_SBLOCK | AST_FUNCALL
  | AST_ARGUMENT | AST_ASSIGNMENT | AST_WHILE | AST_IFTHEN | AST_IFTHENELSE
  | AST_EXPRESSION | AST_RELEXPR | AST_VARREF | AST_CONSTANT
  | AST_UNKNOWN (code : Int)
  deriving DecidableEq, Repr

/-- Value types of `DataType`; `T_OTHER c` is any other value of the enum's integer. -/
inductive DataType where
  | T_INT | T_LONG | T_STRING | T_RETURNVAL
  | T_OTHER (code : Int)
  deriving DecidableEq, Repr

/-- Storage classes of `VarKind`; `V_OTHER c` is any other value of the enum's integer. -/
inductive VarKind where
  | V_GLOBAL | V_GLARRAY | V_PARAM | V_LOCAL
  | V_OTHER (code : Int)
  deriving DecidableEq, Repr

/-- Modelled from the spec: the numbering of the `DataType` enumerators lives in `astree.h`,
which is not part of the sources; the spec lists them in the order Int, Long, String,
ReturnValue. Only the `%d` of an unknown value type prints this number. -/
def DataType.code : DataType → Int
  | .T_INT => 0
  | .T_LONG => 1
  | .T_STRING => 2
  | .T_RETURNVAL => 3
  | .T_OTHER c => c

/-- The scalar fields of one `ASTNode`. `strval` is `none` for a `NULL` string;
`strNeedsFreed` is the source's flag (non-zero is `true`). -/
structure NodeData where
  type : ASTNodeType
  valType : DataType
  varKind : VarKind
  ival : Int
  strval : Option String
  strNeedsFreed : Bool
  deriving DecidableEq, Repr

/-- A pointer to an `ASTNode`: `null`, or a node with its fields, `child[0]`, `child[1]`,
`child[2]` and `next`. -/
inductive ASTNode where
  | null : ASTNode
  | node (d : NodeData) (child0 child1 child2 next : ASTNode) : ASTNode
  deriving DecidableEq, Repr

/-! ## Machine integers -/

/-- Two's-complement wrap-around of an integer to the range of a 32-bit `int`. -/
def wrap32 (x : Int) : Int := (x + 2147483648) % 4294967296 - 2147483648

/-- The range of a 32-bit signed `int`. -/
def isInt32 (x : Int) : Prop := -2147483648 ≤ x ∧ x ≤ 2147483647

instance (x : Int) : Decidable (isInt32 x) := by unfold isInt32; infer_instance

/-! ## `levelPrefix` -/

/-- The constant `INDENTAMT`. -/
def INDENTAMT : Int := 3

/-- The loop `for (i=0; i < level*INDENTAMT && i < 126; i++) prefix[i] = ' ';` of `levelPrefix`:
`fuel` bounds the remaining iterations, `i` is the loop variable; the result is the final `i`,
the index at which the terminating NUL is stored. -/
def levelPrefixLoop (level : Int) : Nat → Nat → Nat
  | 0, i => i
  | fuel + 1, i =>
    if (i : Int) < wrap32 (level * INDENTAMT) ∧ i < 126 then levelPrefixLoop level fuel (i + 1)
    else i

/-- The string returned by `levelPrefix(level)`: the blanks written by the loop. The loop
body runs at most 126 times. -/
def levelPrefix (level : Int) : String :=
  String.mk (List.replicate (levelPrefixLoop level 126 0) (Char.ofNat 32))

/-! ## Output of the code generator -/

/-- Register names occurring in the emitted text; `a n` is the argument register `a<n>`. -/
inductive Reg where
  | t0 | t1 | sp | fp | ra
  | a (n : Int)
  deriving DecidableEq, Repr

/-- The name of a register as printed. -/
def Reg.name : Reg → String
  | .t0 => "t0"
  | .t1 => "t1"
  | .sp => "sp"
  | .fp => "fp"
  | .ra => "ra"
  | .a n => "a" ++ toString n

/-- One piece of text written by `grabStrings` or `genCodeFromASTree`. Each constructor is
one format of the source; `Asm.render` is its text. -/
inductive Asm where
  /-- The output of `fprintf(out,"%s",levelPrefix(hval))`. -/
  | indent (s : String)
  /-- A format without arguments, written verbatim. -/
  | txt (s : String)
  /-- The format `.SC%d:\t.string \t%s\n`. -/
  | strDecl (idx : Int) (s : Option String)
  /-- The format `%s: .space %d\n`. -/
  | space (name : Option String) (bytes : Int)
  /-- The format `%s: .word 0\n`. -/
  | word0 (name : Option String)
  /-- The format `unknown type (%d)\n`. -/
  | unknownType (t : DataType)
  /-- The format `#\n# Function def for %s\n#\n`. -/
  | funComment (name : Option String)
  /-- The format `%s:\n`. -/
  | symLabel (name : Option String)
  /-- The format `\t#--function call to %s--\n`. -/
  | callComment (name : Option String)
  /-- The format `\tjal\t\t%s\n`. -/
  | jal (name : Option String)
  /-- The line `\tli\t\t<rd>, <imm>\n`. -/
  | li (rd : Reg) (imm : Int)
  /-- The line `\taddi\t<rd>, <rs>, <imm>\n`. -/
  | addi (rd rs : Reg) (imm : Int)
  /-- The line `\tsw\t\t<rs>, <off>(<base>)\n`. -/
  | sw (rs : Reg) (off : Int) (base : Reg)
  /-- The line `\tlw\t\t<rd>, <off>(<base>)\n`. -/
  | lw (rd : Reg) (off : Int) (base : Reg)
  /-- The line `\tmv\t\t<rd>, <rs>\n`. -/
  | mv (rd rs : Reg)
  /-- The format `\tsw\t\tt0, %s, t1\n`. -/
  | swSym (rs : Reg) (name : Option String) (tmp : Reg)
  /-- The format `\tlw\t\tt0, %s\n`. -/
  | lwSym (rd : Reg) (name : Option String)
  /-- The line `\tslli\t<rd>, <rs>, <sh>\n`. -/
  | slli (rd rs : Reg) (sh : Int)
  /-- The format `\tla\t\tt1, %s\n`. -/
  | la (rd : Reg) (name : Option String)
  /-- The format `\tla\t\tt0, .SC%d\n`. -/
  | laSC (rd : Reg) (idx : Int)
  /-- The format `\t%s\t\tt0, t1, t0\n` (and the fixed line `\tadd\t\tt1, t1, t0\n`). -/
  | op3 (instr : String) (rd rs1 rs2 : Reg)
  /-- The format `\tb\t\t.LL%d\n`. -/
  | jump (target : Int)
  /-- The format `.LL%d:\n`. -/
  | label (n : Int)
  /-- The format `\t%s\t\tt1, t0, .LL%d\n`. -/
  | branch (instr : String) (rs1 rs2 : Reg) (target : Int)
  /-- The format `\t# Relational Expression (op %d,%c)\n`. -/
  | relComment (ival : Int)
  deriving DecidableEq, Repr

/-- The text of `%s` for a string argument; a `NULL` argument prints as `(null)` (the C
library's behaviour). -/
def fmtS : Option String → String
  | some s => s
  | none => "(null)"

/-- The text of `%d`. -/
def fmtD (n : Int) : String := toString n

/-- The text of `%c`: the character whose code is the argument converted to `unsigned char`. -/
def fmtC (n : Int) : String := String.singleton (Char.ofNat (n % 256).toNat)

/-- The exact text of one output item. -/
def Asm.render : Asm → String
  | .indent s => s
  | .txt s => s
  | .strDecl idx s => ".SC" ++ fmtD idx ++ ":\t.string \t" ++ fmtS s ++ "\n"
  | .space name bytes => fmtS name ++ ": .space " ++ fmtD bytes ++ "\n"
  | .word0 name => fmtS name ++ ": .word 0\n"
  | .unknownType t => "unknown type (" ++ fmtD t.code ++ ")\n"
  | .funComment name => "#\n# Function def for " ++ fmtS name ++ "\n#\n"
  | .symLabel name => fmtS name ++ ":\n"
  | .callComment name => "\t#--function call to " ++ fmtS name ++ "--\n"
  | .jal name => "\tjal\t\t" ++ fmtS name ++ "\n"
  | .li rd imm => "\tli\t\t" ++ rd.name ++ ", " ++ fmtD imm ++ "\n"
  | .addi rd rs imm => "\taddi\t" ++ rd.name ++ ", " ++ rs.name ++ ", " ++ fmtD imm ++ "\n"
  | .sw rs off base => "\tsw\t\t" ++ rs.name ++ ", " ++ fmtD off ++ "(" ++ base.name ++ ")\n"
  | .lw rd off base => "\tlw\t\t" ++ rd.name ++ ", " ++ fmtD off ++ "(" ++ base.name ++ ")\n"
  | .mv rd rs => "\tmv\t\t" ++ rd.name ++ ", " ++ rs.name ++ "\n"
  | .swSym rs name tmp => "\tsw\t\t" ++ rs.name ++ ", " ++ fmtS name ++ ", " ++ tmp.name ++ "\n"
  | .lwSym rd name => "\tlw\t\t" ++ rd.name ++ ", " ++ fmtS name ++ "\n"
  | .slli rd rs sh => "\tslli\t" ++ rd.name ++ ", " ++ rs.name ++ ", " ++ fmtD sh ++ "\n"
  | .la rd name => "\tla\t\t" ++ rd.name ++ ", " ++ fmtS name ++ "\n"
  | .laSC rd idx => "\tla\t\t" ++ rd.name ++ ", .SC" ++ fmtD idx ++ "\n"
  | .op3 instr rd rs1 rs2 =>
    "\t" ++ instr ++ "\t\t" ++ rd.name ++ ", " ++ rs1.name ++ ", " ++ rs2.name ++ "\n"
  | .jump target => "\tb\t\t.LL" ++ fmtD target ++ "\n"
  | .label n => ".LL" ++ fmtD n ++ ":\n"
  | .branch instr rs1 rs2 target =>
    "\t" ++ instr ++ "\t\t" ++ rs1.name ++ ", " ++ rs2.name ++ ", .LL" ++ fmtD target ++ "\n"
  | .relComment ival => "\t# Relational Expression (op " ++ fmtD ival ++ "," ++ fmtC ival ++ ")\n"

/-- The text written to `out` by a sequence of output items. -/
def renderAll (l : List Asm) : String := String.join (l.map Asm.render)

/-! ## Global state of the generator -/

/-- The mutable globals used during code generation: the table `savedStrings`, the counter
`lastStringIndex`, the relational-label counter `labelCount` and the static `lid` of
`getUniqueLabelID`. The table is indexed by the value of `lastStringIndex`; the C array has
`savedStringsSize` entries, an index outside `0 .. savedStringsSize - 1` is out of bounds. -/
structure GenState where
  savedStrings : Int → Option String
  lastStringIndex : Int
  labelCount : Int
  lid : Int

/-- The globals as initialised at program start: `savedStrings` all `NULL`,
`lastStringIndex = 0`, `labelCount = 100`, `lid = 100`. -/
def initState : GenState :=
  { savedStrings := fun _ => none, lastStringIndex := 0, labelCount := 100, lid := 100 }

/-- The function `addString`: stores (a copy of) `str` at `savedStrings[lastStringIndex]` and
returns the index, post-incrementing `lastStringIndex`. `strdup` is taken to succeed. -/
def addString (str : String) (s : GenState) : Int × GenState :=
  (s.lastStringIndex,
   { s with
     savedStrings := fun i => if i = s.lastStringIndex then some str else s.savedStrings i
     lastStringIndex := wrap32 (s.lastStringIndex + 1) })

/-- The test `node->strval[0] == QUOTE` on a non-`NULL` string, `QUOTE` being the double-quote
character (code 34); the first byte of an empty string is the terminating NUL. -/
def startsWithQuote (str : String) : Bool :=
  match str.data with
  | [] => false
  | c :: _ => c == Char.ofNat 34

/-- The part of `grabStrings` that handles the current node (source lines 44-51). -/
def grabOwn (d : NodeData) (s : GenState) : GenState × List Asm :=
  if d.valType = .T_STRING then
    match d.strval with
    | some str =>
      if startsWithQuote str then
        let r := addString str s
        (r.2, [Asm.strDecl r.1 (r.2.savedStrings r.1)])
      else (s, [])
    | none => (s, [])
  else (s, [])

/-- The function `grabStrings`: children 0, 1, 2, then the node itself, then `next`. -/
def grabStrings : ASTNode → GenState → GenState × List Asm
  | .null, s => (s, [])
  | .node d c0 c1 c2 nx, s =>
    let r0 := grabStrings c0 s
    let r1 := grabStrings c1 r0.1
    let r2 := grabStrings c2 r1.1
    let ro := grabOwn d r2.1
    let rn := grabStrings nx ro.1
    (rn.1, r0.2 ++ r1.2 ++ r2.2 ++ ro.2 ++ rn.2)

/-- The function `getUniqueLabelID`: `return lid++`. -/
def getUniqueLabelID (s : GenState) : Int × GenState :=
  (s.lid, { s with lid := wrap32 (s.lid + 1) })

/-- The `switch (node->ival)` of the `AST_EXPRESSION` case: the value of `instr`. -/
def addopInstr (ival : Int) : String :=
  if ival = 43 then "add"            -- '+'
  else if ival = 45 then "sub"       -- '-'
  else "unknown ADDOP"

/-- The `switch (node->ival)` of the `AST_RELEXPR` case: the value of `instr`. -/
def relopInstr (ival : Int) : String :=
  if ival = 61 then "beq"            -- '='
  else if ival = 33 then "bne"       -- '!'
  else if ival = 60 then "blt"       -- '<'
  else if ival = 62 then "bgt"       -- '>'
  else "unknown relop"

/-- The fixed text written at the start of the `AST_PROGRAM` case (three `fprintf`s). -/
def programHeader : List Asm :=
  [ Asm.txt "#\n# RISC-V assembly output\n#\n\n",
    Asm.txt "#\n# Data section\n#\n\t.data\n\n",
    Asm.txt "# string constants\n" ]

/-- The text written before the global variables. -/
def globalsHeader : List Asm := [Asm.txt "\n# global symbols (variables)\n"]

/-- The text-section header with the `program:` entry label. -/
def textHeader : List Asm := [Asm.txt "\n#\n# Program instructions\n#\n\t.text\nprogram:\n"]

/-- The process-exit sequence followed by the header of the declared functions. -/
def exitSequence : List Asm :=
  [ Asm.txt "\tli\t\ta0, 0\n\tli\t\ta7, 93\n\tecall\n\n",
    Asm.txt "#\n# Declared Functions\n#\n\n" ]

/-- The library functions `printStr`, `printInt`, `readInt` (four `fprintf`s). -/
def libraryFunctions : List Asm :=
  [ Asm.txt "#\n# Library functions\n#\n\n",
    Asm.txt "# Print a null-terminated string: arg: a0 == string address\nprintStr:\n\tli\t\ta7, 4\n\tecall\n\tret\n\n",
    Asm.txt "# Print a decimal integer: arg: a0 == value\nprintInt:\n\tli\t\ta7, 1\n\tecall\n\tret\n\n",
    Asm.txt "# Read in a decimal integer: return: a0 == value\nreadInt:\n\tli\t\ta7, 1\n\tecall\n\tret\n\n" ]

/-- The function prologue: frame of 128 bytes, `fp`, `ra` and `a0..a5` saved. -/
def prologue : List Asm :=
  [ Asm.addi .sp .sp (-128), Asm.sw .fp 4 .sp, Asm.sw .ra 0 .sp, Asm.mv .fp .sp,
    Asm.sw (.a 0) 8 .sp, Asm.sw (.a 1) 12 .sp, Asm.sw (.a 2) 16 .sp,
    Asm.sw (.a 3) 20 .sp, Asm.sw (.a 4) 24 .sp, Asm.sw (.a 5) 28 .sp ]

/-- The function epilogue. -/
def epilogue : List Asm :=
  [ Asm.mv .sp .fp, Asm.lw .fp 4 .sp, Asm.lw .ra 0 .sp, Asm.addi .sp .sp 128,
    Asm.txt "\tret\n\n" ]

/-- The push of `t0` on the scratch stack: `addi sp, sp, -4` then `sw t0, 0(sp)`. -/
def pushT0 : List Asm := [Asm.addi .sp .sp (-4), Asm.sw .t0 0 .sp]

/-- The frame offset `(node->ival+2)*4` of a parameter or local, in `int` arithmetic. -/
def frameOffset (ival : Int) : Int := wrap32 (wrap32 (ival + 2) * 4)

/-- The function `genCodeFromASTree(node, hval, out)`. The result is the state of the globals
after the call and the items written to `out`. The local `level` is the constant 0, so
`level+1` is 1. -/
def genCodeFromASTree : ASTNode → Int → GenState → GenState × List Asm
  | .null, _, s => (s, [])
  | .node d c0 c1 c2 nx, hval, s =>
    let body : GenState × List Asm :=
      match d.type with
      | .AST_PROGRAM =>
        let rs := grabStrings (.node d c0 c1 c2 nx) { s with lastStringIndex := 0 }
        let g0 := genCodeFromASTree c0 0 rs.1
        let g2 := genCodeFromASTree c2 0 g0.1
        let g1 := genCodeFromASTree c1 0 g2.1
        (g1.1, programHeader ++ rs.2 ++ globalsHeader ++ g0.2 ++ textHeader ++ g2.2
                 ++ exitSequence ++ g1.2 ++ libraryFunctions)
      | .AST_VARDECL =>
        if d.valType = .T_INT then
          if d.ival > 0 then (s, [Asm.space d.strval (wrap32 (d.ival * 4))])
          else (s, [Asm.word0 d.strval])
        else if d.valType = .T_STRING then
          let g0 := genCodeFromASTree c0 0 s
          (g0.1, g0.2 ++ [Asm.txt " type string\n"])
        else (s, [Asm.unknownType d.valType])
      | .AST_FUNCTION =>
        let g1 := genCodeFromASTree c1 0 s
        (g1.1, [Asm.funComment d.strval, Asm.symLabel d.strval] ++ prologue ++ g1.2 ++ epilogue)
      | .AST_SBLOCK => genCodeFromASTree c0 0 s
      | .AST_FUNCALL =>
        let g0 := genCodeFromASTree c0 0 s
        (g0.1, [Asm.callComment d.strval] ++ g0.2 ++ [Asm.jal d.strval])
      | .AST_ARGUMENT =>
        let g0 := genCodeFromASTree c0 0 s
        (g0.1, g0.2 ++ [Asm.mv (.a d.ival) .t0])
      | .AST_ASSIGNMENT =>
        let g0 := genCodeFromASTree c0 1 s
        if d.varKind = .V_GLOBAL then
          (g0.1, [Asm.txt "\t#--assignment--\n"] ++ g0.2 ++ [Asm.swSym .t0 d.strval .t1])
        else if d.varKind = .V_PARAM ∨ d.varKind = .V_LOCAL then
          (g0.1, [Asm.txt "\t#--assignment--\n"] ++ g0.2 ++ [Asm.sw .t0 (frameOffset d.ival) .fp])
        else if d.varKind = .V_GLARRAY then
          let g1 := genCodeFromASTree c1 1 g0.1
          (g1.1, [Asm.txt "\t#--assignment--\n"] ++ g0.2 ++ pushT0 ++ g1.2
                   ++ [Asm.slli .t0 .t0 2, Asm.la .t1 d.strval, Asm.op3 "add" .t1 .t1 .t0,
                       Asm.lw .t0 0 .sp, Asm.addi .sp .sp 4, Asm.sw .t0 0 .t1])
        else
          (g0.1, [Asm.txt "\t#--assignment--\n"] ++ g0.2
                   ++ [Asm.txt "unknown var kind assignment\n"])
      | .AST_WHILE =>
        let l1 := getUniqueLabelID s
        let l2 := getUniqueLabelID l1.2
        let firstLabel := l1.1
        let secondLabel := l2.1
        let g1 := genCodeFromASTree c1 0 l2.2
        let g0 := genCodeFromASTree c0 0 g1.1
        (g0.1, [Asm.txt "\t#--while-loop--\n", Asm.jump secondLabel, Asm.label firstLabel,
                Asm.txt "\t#--loop-body--\n"] ++ g1.2
                 ++ [Asm.txt "\t#--loop-condition--\n", Asm.label secondLabel] ++ g0.2
                 ++ [Asm.txt "\t#--end-loop--\n"])
      | .AST_IFTHEN =>
        let l1 := getUniqueLabelID s
        let l2 := getUniqueLabelID l1.2
        let firstLabel := l1.1
        let secondLabel := l2.1
        let g0 := genCodeFromASTree c0 0 l2.2
        let g2 := genCodeFromASTree c2 0 g0.1
        let g1 := genCodeFromASTree c1 0 g2.1
        (g1.1, [Asm.txt "\t#--ifthenelse--\n"] ++ g0.2 ++ [Asm.txt "\t#--else--\n"] ++ g2.2
                 ++ [Asm.jump secondLabel, Asm.label firstLabel, Asm.txt "\t#--if--\n"] ++ g1.2
                 ++ [Asm.label secondLabel, Asm.txt "\t#--endif--\n"])
      | .AST_EXPRESSION =>
        let g0 := genCodeFromASTree c0 1 s
        let g1 := genCodeFromASTree c1 1 g0.1
        (g1.1, [Asm.txt "\t#--binary-op-expression--\n"] ++ g0.2 ++ pushT0 ++ g1.2
                 ++ [Asm.lw .t1 0 .sp, Asm.addi .sp .sp 4, Asm.op3 (addopInstr d.ival) .t0 .t1 .t0])
      | .AST_RELEXPR =>
        let g0 := genCodeFromASTree c0 0 s
        let g1 := genCodeFromASTree c1 0 g0.1
        ({ g1.1 with labelCount := wrap32 (g1.1.labelCount + 1) },
         [Asm.relComment d.ival] ++ g0.2 ++ pushT0 ++ g1.2
           ++ [Asm.lw .t1 0 .sp, Asm.addi .sp .sp 4,
               Asm.branch (relopInstr d.ival) .t1 .t0 g1.1.labelCount])
      | .AST_VARREF =>
        if d.varKind = .V_GLOBAL then (s, [Asm.lwSym .t0 d.strval])
        else if d.varKind = .V_PARAM ∨ d.varKind = .V_LOCAL then
          (s, [Asm.lw .t0 (frameOffset d.ival) .fp])
        else if d.varKind = .V_GLARRAY then
          let g0 := genCodeFromASTree c0 0 s
          (g0.1, g0.2 ++ [Asm.slli .t0 .t0 2, Asm.la .t1 d.strval, Asm.op3 "add" .t1 .t1 .t0,
                          Asm.lw .t0 0 .t1])
        else (s, [Asm.txt "unknown var kind reference\n"])
      | .AST_CONSTANT =>
        if d.valType = .T_INT then (s, [Asm.li .t0 d.ival])
        else if d.valType = .T_STRING then (s, [Asm.laSC .t0 d.ival])
        else if d.valType = .T_RETURNVAL then (s, [Asm.mv .t0 (.a 0)])
        else (s, [Asm.txt "Unknown Constant\n"])
      | _ => (s, [Asm.txt "Unknown AST node!\n"])
    let rn := genCodeFromASTree nx 0 body.1
    (rn.1, [Asm.indent (levelPrefix hval)] ++ body.2 ++ rn.2)

/-! ## `newASTNode` -/

/-- A block returned by `malloc(sizeof(ASTNode))`: its fields hold arbitrary values until
they are assigned. -/
structure Block where
  d : NodeData
  child0 : ASTNode
  child1 : ASTNode
  child2 : ASTNode
  next : ASTNode

/-- The function `newASTNode(type)`. `malloc` is the result of the allocation: `none` for
`NULL`, otherwise the uninitialised block. The assignments are those of the source, in
order; `valType` is set to `T_INT` and then to `T_RETURNVAL`; the loop over
`i < ASTNUMCHILDREN` clears the three child slots. -/
def newASTNode (type : ASTNodeType) (malloc : Option Block) : ASTNode :=
  match malloc with
  | none => .null
  | some b0 =>
    let b1 : Block := { b0 with d := { b0.d with type := type } }
    let b2 : Block := { b1 with d := { b1.d with valType := .T_INT } }
    let b3 : Block := { b2 with d := { b2.d with varKind := .V_GLOBAL } }
    let b4 : Block := { b3 with d := { b3.d with valType := .T_RETURNVAL } }
    let b5 : Block := { b4 with d := { b4.d with ival := 0 } }
    let b6 : Block := { b5 with d := { b5.d with strval := none } }
    let b7 : Block := { b6 with d := { b6.d with strNeedsFreed := false } }
    let b8 : Block := { b7 with next := .null }
    let b9 : Block := { b8 with child0 := .null }
    let b10 : Block := { b9 with child1 := .null }
    let b11 : Block := { b10 with child2 := .null }
    .node b11.d b11.child0 b11.child1 b11.child2 b11.next

/-! ## `freeASTree` -/

/-- One step from a node to `child[0]`, `child[1]`, `child[2]` or `next`. -/
inductive Dir where
  | c0 | c1 | c2 | nx
  deriving DecidableEq, Repr

/-- The identity of a node of a tree: the path leading to it from the root (the tree has no
sharing, so distinct paths are distinct allocations). -/
abbrev Path := List Dir

/-- A call of `free`: on the `strval` of the node at a path, or on the node itself. -/
inductive FreeEvent where
  | str (p : Path)
  | node (p : Path)
  deriving DecidableEq, Repr

/-- The function `freeASTree(node)`, `here` being the identity of `node`; the result is the
sequence of `free` calls made. -/
def freeASTree : ASTNode → Path → List FreeEvent
  | .null, _ => []
  | .node d c0 c1 c2 nx, here =>
    freeASTree c0 (here ++ [Dir.c0]) ++ freeASTree c1 (here ++ [Dir.c1])
      ++ freeASTree c2 (here ++ [Dir.c2]) ++ freeASTree nx (here ++ [Dir.nx])
      ++ (if d.strNeedsFreed = true ∧ d.strval.isSome = true then [FreeEvent.str here] else [])
      ++ [FreeEvent.node here]

/-- The fields of the node reached from a tree along a path, `none` when the path leaves the
tree. -/
def nodeAt : ASTNode → Path → Option NodeData
  | .null, _ => none
  | .node d _ _ _ _, [] => some d
  | .node _ c0 _ _ _, Dir.c0 :: p => nodeAt c0 p
  | .node _ _ c1 _ _, Dir.c1 :: p => nodeAt c1 p
  | .node _ _ _ c2 _, Dir.c2 :: p => nodeAt c2 p
  | .node _ _ _ _ nx, Dir.nx :: p => nodeAt nx p

/-! ## `printASTree` -/

/-- The stream a piece of text is written to: the parameter `out`, or the process's standard
output (`printf`). -/
inductive Sink where
  | out | stdout
  deriving DecidableEq, Repr

/-- The function `printASTree(node, level, out)`: the sequence of writes, each with its
stream. -/
def printASTree : ASTNode → Int → List (Sink × String)
  | .null, _ => []
  | .node d c0 c1 c2 nx, level =>
    let sub := wrap32 (level + 1)
    let body : List (Sink × String) :=
      match d.type with
      | .AST_PROGRAM =>
        [(Sink.out, "Whole Program AST:\n"), (Sink.out, levelPrefix sub ++ "--globalvars--\n")]
          ++ printASTree c0 sub ++ [(Sink.out, levelPrefix sub ++ "--functions--\n")]
          ++ printASTree c1 sub ++ [(Sink.out, levelPrefix sub ++ "--program--\n")]
          ++ printASTree c2 sub
      | .AST_VARDECL =>
        [(Sink.out, "Variable declaration (" ++ fmtS d.strval ++ ")"),
         (Sink.out,
           if d.valType = .T_INT then
             if d.varKind ≠ .V_GLARRAY then " type int\n"
             else " type int array size " ++ fmtD d.ival ++ "\n"
           else if d.valType = .T_LONG then " type long\n"
           else if d.valType = .T_STRING then " type string\n"
           else " type unknown (" ++ fmtD d.valType.code ++ ")\n")]
      | .AST_FUNCTION =>
        [(Sink.out, "Function def (" ++ fmtS d.strval ++ ")\n"),
         (Sink.out, levelPrefix sub ++ "--params--\n")]
          ++ printASTree c0 sub ++ [(Sink.out, levelPrefix sub ++ "--locals--\n")]
          ++ printASTree c2 sub ++ [(Sink.out, levelPrefix sub ++ "--body--\n")]
          ++ printASTree c1 sub
      | .AST_SBLOCK => [(Sink.out, "Statement block\n")] ++ printASTree c0 sub
      | .AST_FUNCALL =>
        [(Sink.out, "Function call (" ++ fmtS d.strval ++ ")\n")] ++ printASTree c0 sub
      | .AST_ARGUMENT => [(Sink.out, "Funcall argument\n")] ++ printASTree c0 sub
      | .AST_ASSIGNMENT =>
        [(Sink.out, "Assignment to (" ++ fmtS d.strval ++ ") ")]
          ++ (if d.varKind = .V_GLARRAY then
                [(Sink.out, "array var\n"), (Sink.out, levelPrefix sub ++ "--index--\n")]
                  ++ printASTree c1 sub
              else [(Sink.out, "simple var\n")])
          ++ [(Sink.out, levelPrefix sub ++ "--right hand side--\n")] ++ printASTree c0 sub
      | .AST_WHILE =>
        [(Sink.out, "While loop\n")] ++ printASTree c0 sub
          ++ [(Sink.out, levelPrefix sub ++ "--body--\n")] ++ printASTree c1 sub
      | .AST_IFTHEN =>
        [(Sink.out, "If then\n")] ++ printASTree c0 sub
          ++ [(Sink.out, levelPrefix sub ++ "--ifpart--\n")] ++ printASTree c1 sub
          ++ [(Sink.out, levelPrefix sub ++ "--elsepart--\n")] ++ printASTree c2 sub
      | .AST_IFTHENELSE =>
        [(Sink.stdout, "If-Then-Else\n")] ++ printASTree c0 sub ++ printASTree c1 sub
          ++ printASTree c2 sub
      | .AST_EXPRESSION =>
        [(Sink.out, "Expression (op " ++ fmtD d.ival ++ "," ++ fmtC d.ival ++ ")\n")]
          ++ printASTree c0 sub ++ printASTree c1 sub
      | .AST_RELEXPR =>
        [(Sink.out, "Relational Expression (op " ++ fmtD d.ival ++ "," ++ fmtC d.ival ++ ")\n")]
          ++ printASTree c0 sub ++ printASTree c1 sub
      | .AST_VARREF =>
        [(Sink.out, "Variable ref (" ++ fmtS d.strval ++ ")")]
          ++ (if d.varKind = .V_GLARRAY then [(Sink.out, " array ref\n")] ++ printASTree c0 sub
              else [(Sink.out, "\n")])
      | .AST_CONSTANT =>
        [(Sink.out,
           if d.valType = .T_INT then "Int Constant = " ++ fmtD d.ival ++ "\n"
           else if d.valType = .T_STRING then "String Constant = (" ++ fmtS d.strval ++ ")\n"
           else "Unknown Constant\n")]
      | _ => [(Sink.out, "Unknown AST node!\n")]
    [(Sink.out, levelPrefix level)] ++ body ++ printASTree nx level

/-! ## Specification-side definitions -/

/-- The text of a node that passes the collector's test, whatever its kind: value type
`T_STRING`, text present and beginning with the quote character. -/
def literalText (d : NodeData) : Option String :=
  if d.valType = .T_STRING then
    match d.strval with
    | some str => if startsWithQuote str = true then some str else none
    | none => none
  else none

/-- The texts of the nodes of a tree that pass the collector's test, in traversal order:
child slots 0, 1, 2, then the node itself, then its `next` chain. -/
def stringLits : ASTNode → List String
  | .null => []
  | .node d c0 c1 c2 nx =>
    stringLits c0 ++ stringLits c1 ++ stringLits c2 ++ (literalText d).toList ++ stringLits nx

/-- The declaration lines `.SC<n>: .string <t0>`, `.SC<n+1>: .string <t1>`, ... for a list
of texts. -/
def declFrom : Nat → List String → List Asm
  | _, [] => []
  | n, t :: ts => Asm.strDecl (n : Int) (some t) :: declFrom (n + 1) ts

/-- The numbers of the label definitions `.LL<n>:` in an output, in order. -/
def labelDefs (out : List Asm) : List Int :=
  out.filterMap fun a => match a with
    | .label n => some n
    | _ => none

/-- The targets of the unconditional jumps `b .LL<n>` in an output, in order. -/
def jumpTargets (out : List Asm) : List Int :=
  out.filterMap fun a => match a with
    | .jump n => some n
    | _ => none

/-- The conditional branches of an output, in order: mnemonic and target label number. -/
def branches (out : List Asm) : List (String × Int) :=
  out.filterMap fun a => match a with
    | .branch instr _ _ n => some (instr, n)
    | _ => none

/-- The control-flow skeleton of an output: its jumps, label definitions and branches. -/
def controlFlow (out : List Asm) : List Asm :=
  out.filter fun a => match a with
    | .jump _ => true
    | .label _ => true
    | .branch _ _ _ _ => true
    | _ => false

/-- The declaration lines and the loads of string-literal addresses of an output. -/
def stringRefs (out : List Asm) : List Asm :=
  out.filter fun a => match a with
    | .strDecl _ _ => true
    | .laSC _ _ => true
    | _ => false

/-! ## Example trees -/

/-- A node without children or successor. -/
def leaf (d : NodeData) : ASTNode := .node d .null .null .null .null

/-- An integer constant. -/
def intConst (n : Int) : ASTNode :=
  leaf ⟨.AST_CONSTANT, .T_INT, .V_GLOBAL, n, none, false⟩

/-- A string constant with text `text` (quotes included) and `ival = idx`. -/
def strConst (text : String) (idx : Int) : ASTNode :=
  leaf ⟨.AST_CONSTANT, .T_STRING, .V_GLOBAL, idx, some text, true⟩

/-- A reference to the global scalar `name`. -/
def globalRef (name : String) : ASTNode :=
  leaf ⟨.AST_VARREF, .T_INT, .V_GLOBAL, 0, some name, false⟩

/-- The statement `callee(arg)` followed by the statement list `nx`. -/
def call1 (callee : String) (arg nx : ASTNode) : ASTNode :=
  .node ⟨.AST_FUNCALL, .T_RETURNVAL, .V_GLOBAL, 0, some callee, false⟩
    (.node ⟨.AST_ARGUMENT, .T_RETURNVAL, .V_GLOBAL, 0, none, false⟩ arg .null .null .null)
    .null .null nx

/-- The fields of a Program node. -/
def programData : NodeData := ⟨.AST_PROGRAM, .T_RETURNVAL, .V_GLOBAL, 0, none, false⟩

/-- The statement list `printStr("S0"); printStr("S1"); printStr("S2");`, the constants
carrying the indices 0, 1, 2. -/
def threeLiteralsBody : ASTNode :=
  call1 "printStr" (strConst "\"S0\"" 0)
    (call1 "printStr" (strConst "\"S1\"" 1)
      (call1 "printStr" (strConst "\"S2\"" 2) .null))

/-- A program whose statements use three string literals, in source order. -/
def threeLiterals : ASTNode := .node programData .null .null threeLiteralsBody .null

/-- The fields of a While node. -/
def whileData : NodeData := ⟨.AST_WHILE, .T_RETURNVAL, .V_GLOBAL, 0, none, false⟩

/-- The condition `i < 10`: RelationalExpression with operator code 60 over
VariableRef `i` and Constant 10. -/
def condLt10 : ASTNode :=
  .node ⟨.AST_RELEXPR, .T_RETURNVAL, .V_GLOBAL, 60, none, false⟩
    (globalRef "i") (intConst 10) .null .null

/-- The loop `while (i < 10) { }` with an absent body, followed by `nx`. -/
def whileLt10 (nx : ASTNode) : ASTNode := .node whileData condLt10 .null .null nx

/-- A program whose statements are two empty `while (i < 10)` loops in a row. -/
def twoWhiles : ASTNode :=
  .node programData .null .null (whileLt10 (whileLt10 .null)) .null

/-- The fields of an IfThen node. -/
def ifThenData : NodeData := ⟨.AST_IFTHEN, .T_RETURNVAL, .V_GLOBAL, 0, none, false⟩

/-- The statement `if (i < 10) { while (i < 10) { } }` without an else-branch. -/
def ifWithLoop : ASTNode := .node ifThenData condLt10 (whileLt10 .null) .null .null

/-- The number of While and IfThen nodes that `genCodeFromASTree` generates for a tree:
the traversal of the generator (which children are lowered depends on the node's kind, value
type and storage class), counting the nodes of kind `AST_WHILE` and `AST_IFTHEN`. -/
def countLabelNodes : ASTNode → Nat
  | .null => 0
  | .node d c0 c1 c2 nx =>
    (match d.type with
      | .AST_PROGRAM => countLabelNodes c0 + countLabelNodes c2 + countLabelNodes c1
      | .AST_VARDECL =>
        if d.valType = .T_INT then 0
        else if d.valType = .T_STRING then countLabelNodes c0
        else 0
      | .AST_FUNCTION => countLabelNodes c1
      | .AST_SBLOCK => countLabelNodes c0
      | .AST_FUNCALL => countLabelNodes c0
      | .AST_ARGUMENT => countLabelNodes c0
      | .AST_ASSIGNMENT =>
        if d.varKind = .V_GLARRAY then countLabelNodes c0 + countLabelNodes c1
        else countLabelNodes c0
      | .AST_WHILE => 1 + countLabelNodes c1 + countLabelNodes c0
      | .AST_IFTHEN => 1 + countLabelNodes c0 + countLabelNodes c2 + countLabelNodes c1
      | .AST_EXPRESSION => countLabelNodes c0 + countLabelNodes c1
      | .AST_RELEXPR => countLabelNodes c0 + countLabelNodes c1
      | .AST_VARREF => if d.varKind = .V_GLARRAY then countLabelNodes c0 else 0
      | _ => 0)
    + countLabelNodes nx

/-! ## A machine for the arithmetic instructions

The machine of the expression code: three 32-bit registers `t0`, `t1`, `sp` and a stack
memory. `addi sp, sp, -4` opens a new word on top of the stack, `sw t0, 0(sp)` writes the top
word, `lw t1, 0(sp)` reads it, `addi sp, sp, 4` drops it. -/

/-- The value of a 32-bit register holding the integer `x`: `x` modulo `2^32`. -/
def word (x : Int) : Int := x % 4294967296

/-- The state of the machine: the registers and the stack memory (top word first; a word
that was opened and not yet written is `none`). -/
structure Machine where
  t0 : Int
  t1 : Int
  sp : Int
  stack : List (Option Int)
  deriving DecidableEq, Repr

/-- A text that is a comment line: it begins with a tab and `#`. -/
def isCommentLine (s : String) : Bool := s.data.take 2 == [Char.ofNat 9, Char.ofNat 35]

/-- One item of the output executed on the machine: indentation and comment lines do
nothing; `li t0`, the push and pop of `sp`, `sw t0, 0(sp)`, `lw t1, 0(sp)` and
`add`/`sub t0, t1, t0` act on the registers and the stack; anything else is not an
instruction of this machine (`none`). -/
def Machine.step (m : Machine) (a : Asm) : Option Machine :=
  match a with
  | .indent _ => some m
  | .txt s => if isCommentLine s = true then some m else none
  | .li rd imm => if rd = .t0 then some { m with t0 := word imm } else none
  | .addi rd rs imm =>
    if rd = .sp ∧ rs = .sp ∧ imm = -4 then
      some { m with sp := word (m.sp - 4), stack := none :: m.stack }
    else if rd = .sp ∧ rs = .sp ∧ imm = 4 then
      match m.stack with
      | [] => none
      | _ :: rest => some { m with sp := word (m.sp + 4), stack := rest }
    else none
  | .sw rs off base =>
    if rs = .t0 ∧ off = 0 ∧ base = .sp then
      match m.stack with
      | [] => none
      | _ :: rest => some { m with stack := some m.t0 :: rest }
    else none
  | .lw rd off base =>
    if rd = .t1 ∧ off = 0 ∧ base = .sp then
      match m.stack with
      | some v :: _ => some { m with t1 := v }
      | _ => none
    else none
  | .op3 instr rd rs1 rs2 =>
    if rd = .t0 ∧ rs1 = .t1 ∧ rs2 = .t0 then
      if instr = "add" then some { m with t0 := word (m.t1 + m.t0) }
      else if instr = "sub" then some { m with t0 := word (m.t1 - m.t0) }
      else none
    else none
  | _ => none

/-- The machine run on a sequence of output items. -/
def Machine.run (m : Machine) : List Asm → Option Machine
  | [] => some m
  | a :: rest =>
    match m.step a with
    | some m1 => m1.run rest
    | none => none

/-- An Expression tree whose leaves are integer Constants and whose operator codes are all
`+` (43) or `-` (45): every Expression node has both operands, and no node has a `next`. -/
def isArith : ASTNode → Bool
  | .node d c0 c1 _ .null =>
    match d.type with
    | .AST_CONSTANT => decide (d.valType = .T_INT)
    | .AST_EXPRESSION => (decide (d.ival = 43) || decide (d.ival = 45)) && isArith c0 && isArith c1
    | _ => false
  | _ => false

/-- The value of such a tree over the integers, `-` being left operand minus right
operand. -/
def evalArith : ASTNode → Int
  | .null => 0
  | .node d c0 c1 _ _ =>
    match d.type with
    | .AST_CONSTANT => d.ival
    | .AST_EXPRESSION =>
      if d.ival = 43 then evalArith c0 + evalArith c1 else evalArith c0 - evalArith c1
    | _ => 0

/-- The expression `2 + 3`. -/
def twoPlusThree : ASTNode :=
  .node ⟨.AST_EXPRESSION, .T_RETURNVAL, .V_GLOBAL, 43, none, false⟩
    (intConst 2) (intConst 3) .null .null

/-- The expression `(7 - 10) + 2` . -/
def nestedArith : ASTNode :=
  .node ⟨.AST_EXPRESSION, .T_RETURNVAL, .V_GLOBAL, 43, none, false⟩
    (.node ⟨.AST_EXPRESSION, .T_RETURNVAL, .V_GLOBAL, 45, none, false⟩
      (intConst 7) (intConst 10) .null .null)
    (intConst 2) .null .null

/-- A machine state to start from. -/
def machine0 : Machine := { t0 := 0, t1 := 0, sp := 4096, stack := [] }

/-- The declaration of the global integer `x`. -/
def declX : ASTNode := leaf ⟨.AST_VARDECL, .T_INT, .V_GLOBAL, 0, some "x", false⟩

/-- The statements `x = 5; printInt(x);`. -/
def mainBody : ASTNode :=
  .node ⟨.AST_ASSIGNMENT, .T_INT, .V_GLOBAL, 0, some "x", false⟩ (intConst 5) .null .null
    (call1 "printInt" (globalRef "x") .null)

/-- The function `main` with the body `x = 5; printInt(x);`. -/
def mainFunction : ASTNode :=
  .node ⟨.AST_FUNCTION, .T_INT, .V_GLOBAL, 0, some "main", false⟩ .null mainBody .null .null

/-- A program with one integer global `x` and the function `main`. -/
def scenario1 : ASTNode := .node programData declX mainFunction .null .null

/-- The declaration of an integer array `arr` of `n` elements. -/
def declArr (n : Int) : ASTNode :=
  leaf ⟨.AST_VARDECL, .T_INT, .V_GLARRAY, n, some "arr", false⟩

/-- The node or string a `free` call is about. -/
def FreeEvent.path : FreeEvent → Path
  | .str p => p
  | .node p => p

/-- How often the node at path `p` of a tree is to be released: once if there is such a
node. -/
def expectedNodeFrees (t : ASTNode) (p : Path) : Nat :=
  match nodeAt t p with
  | some _ => 1
  | none => 0

/-- How often the string of the node at path `p` is to be released: once if the node exists,
has `strNeedsFreed` set and a string present. -/
def expectedStrFrees (t : ASTNode) (p : Path) : Nat :=
  match nodeAt t p with
  | some d => if d.strNeedsFreed = true ∧ d.strval.isSome = true then 1 else 0
  | none => 0

/-- A tree of four nodes: the root owns its string, its first child borrows one, its second
child owns none, its successor owns one. -/
def ownershipSample : ASTNode :=
  .node ⟨.AST_FUNCALL, .T_RETURNVAL, .V_GLOBAL, 0, some "f", true⟩
    (leaf ⟨.AST_VARREF, .T_INT, .V_GLOBAL, 0, some "x", false⟩)
    (leaf ⟨.AST_CONSTANT, .T_INT, .V_GLOBAL, 1, none, true⟩)
    .null
    (leaf ⟨.AST_CONSTANT, .T_STRING, .V_GLOBAL, 0, some "\"s\"", true⟩)

/-! ## Definitions for the printer and the placeholder lines -/

/-- The placeholder line of the `default` case of both traversals. -/
def unknownNodeLine : String := "Unknown AST node!\n"

/-- The 14 kinds defined by `ASTNodeType`. -/
def isDefinedKind : ASTNodeType → Bool
  | .AST_UNKNOWN _ => false
  | _ => true

/-- The kinds for which `genCodeFromASTree` has no `case`: `AST_IFTHENELSE` and every value
that is not one of the 14 kinds. -/
def hasNoGenCase : ASTNodeType → Bool
  | .AST_IFTHENELSE => true
  | .AST_UNKNOWN _ => true
  | _ => false

/-- The nodes on which `printASTree` is called when it prints a tree, in the order of the
calls: the node, the children its kind prints, then its `next` chain. -/
def printedNodes : ASTNode → List NodeData
  | .null => []
  | .node d c0 c1 c2 nx =>
    d :: (match d.type with
      | .AST_PROGRAM => printedNodes c0 ++ printedNodes c1 ++ printedNodes c2
      | .AST_VARDECL => []
      | .AST_FUNCTION => printedNodes c0 ++ printedNodes c2 ++ printedNodes c1
      | .AST_SBLOCK => printedNodes c0
      | .AST_FUNCALL => printedNodes c0
      | .AST_ARGUMENT => printedNodes c0
      | .AST_ASSIGNMENT =>
        (if d.varKind = .V_GLARRAY then printedNodes c1 else []) ++ printedNodes c0
      | .AST_WHILE => printedNodes c0 ++ printedNodes c1
      | .AST_IFTHEN => printedNodes c0 ++ printedNodes c1 ++ printedNodes c2
      | .AST_IFTHENELSE => printedNodes c0 ++ printedNodes c1 ++ printedNodes c2
      | .AST_EXPRESSION => printedNodes c0 ++ printedNodes c1
      | .AST_RELEXPR => printedNodes c0 ++ printedNodes c1
      | .AST_VARREF => if d.varKind = .V_GLARRAY then printedNodes c0 else []
      | .AST_CONSTANT => []
      | .AST_UNKNOWN _ => [])
    ++ printedNodes nx

/-- The nodes on which `genCodeFromASTree` is called when it generates a tree, in the order
of the calls: the node, the children its kind lowers, then its `next` chain. -/
def generatedNodes : ASTNode → List NodeData
  | .null => []
  | .node d c0 c1 c2 nx =>
    d :: (match d.type with
      | .AST_PROGRAM => generatedNodes c0 ++ generatedNodes c2 ++ generatedNodes c1
      | .AST_VARDECL =>
        if d.valType = .T_INT then []
        else if d.valType = .T_STRING then generatedNodes c0
        else []
      | .AST_FUNCTION => generatedNodes c1
      | .AST_SBLOCK => generatedNodes c0
      | .AST_FUNCALL => generatedNodes c0
      | .AST_ARGUMENT => generatedNodes c0
      | .AST_ASSIGNMENT =>
        generatedNodes c0 ++ (if d.varKind = .V_GLARRAY then generatedNodes c1 else [])
      | .AST_WHILE => generatedNodes c1 ++ generatedNodes c0
      | .AST_IFTHEN => generatedNodes c0 ++ generatedNodes c2 ++ generatedNodes c1
      | .AST_EXPRESSION => generatedNodes c0 ++ generatedNodes c1
      | .AST_RELEXPR => generatedNodes c0 ++ generatedNodes c1
      | .AST_VARREF => if d.varKind = .V_GLARRAY then generatedNodes c0 else []
      | _ => [])
    ++ generatedNodes nx

/-! ## The scratch stack in the output -/

/-- The push of the scratch stack, `addi sp, sp, -4`. -/
def pushItem : Asm := Asm.addi .sp .sp (-4)

/-- The pop of the scratch stack, `addi sp, sp, 4`. -/
def popItem : Asm := Asm.addi .sp .sp 4

/-- Matching of pushes and pops like parentheses: `depth` words are on the scratch stack; a
push adds one, a pop removes one and fails on an empty stack; the result is the depth at the
end. -/
def scanStack : List Asm → Nat → Option Nat
  | [], depth => some depth
  | a :: rest, depth =>
    if a = pushItem then scanStack rest (depth + 1)
    else if a = popItem then
      match depth with
      | 0 => none
      | k + 1 => scanStack rest k
    else scanStack rest depth

/-- The indices of the declaration lines of an output: the indices at which `addString`
stored a literal in `savedStrings`. -/
def tableWrites (out : List Asm) : List Int :=
  out.filterMap fun a => match a with
    | .strDecl idx _ => some idx
    | _ => none

/-- Every number occurs at most once in `l`, and only numbers of `[lo, hi)` occur. -/
def LabelsIn (l : List Int) (lo hi : Int) : Prop :=
  ∀ x : Int, l.count x ≤ 1 ∧ (x < lo → l.count x = 0) ∧ (hi ≤ x → l.count x = 0)

/-- Without 32-bit overflow of `lid`, generating a tree advances `lid` by two per While or
IfThen node generated, and the label definitions written are pairwise distinct numbers of
the interval between the old and the new value of `lid`. -/
def LabelSpec (t : ASTNode) : Prop :=
  ∀ (hval : Int) (s : GenState),
    -2147483648 ≤ s.lid → s.lid + 2 * (countLabelNodes t : Int) ≤ 2147483647 →
    (genCodeFromASTree t hval s).1.lid = s.lid + 2 * (countLabelNodes t : Int)
    ∧ LabelsIn (labelDefs (genCodeFromASTree t hval s).2) s.lid
        (s.lid + 2 * (countLabelNodes t : Int))

/-! ## Counting and example definitions for the later properties -/

/-- The number of placeholder lines among the writes of the printer. -/
def sentinelWrites (l : List (Sink × String)) : Nat := l.count (Sink.out, unknownNodeLine)

/-- A node whose kind is not one of the 14 defined kinds. -/
def isUndefinedNode (d : NodeData) : Bool := !isDefinedKind d.type

/-- A statement `f(arg)` whose Argument node (not a Constant) has value type String and a
text beginning with a quote. -/
def quotedArgument : ASTNode :=
  .node programData .null .null
    (.node ⟨.AST_FUNCALL, .T_RETURNVAL, .V_GLOBAL, 0, some "f", false⟩
      (.node ⟨.AST_ARGUMENT, .T_STRING, .V_GLOBAL, 0, some "\"a\"", false⟩
        (intConst 1) .null .null .null)
      .null .null .null)
    .null

/-- The number of writes of the printer that go to the standard output. -/
def stdoutWrites (l : List (Sink × String)) : Nat := l.countP fun w => w.1 = Sink.stdout

/-- A node of kind `AST_IFTHENELSE`. -/
def isIfThenElseNode (d : NodeData) : Bool := decide (d.type = .AST_IFTHENELSE)

/-- The assignment `slot3 = 7` to the local in frame slot 3. -/
def assignSlot3 : ASTNode :=
  .node ⟨.AST_ASSIGNMENT, .T_INT, .V_LOCAL, 3, some "v", false⟩ (intConst 7) .null .null .null

/-- A reference to the parameter in frame slot 3. -/
def refSlot3 : ASTNode := leaf ⟨.AST_VARREF, .T_INT, .V_PARAM, 3, some "v", false⟩

/-- The number of pushes of the scratch stack in an output. -/
def pushes (out : List Asm) : Nat := out.count pushItem

/-- The number of pops of the scratch stack in an output. -/
def pops (out : List Asm) : Nat := out.count popItem

/-- The number of placeholder lines `Unknown AST node!` in an output of the generator. -/
def sentinelItems (out : List Asm) : Nat := out.count (Asm.txt unknownNodeLine)

/-- A node for whose kind the generator has no `case`. -/
def isUngeneratedKind (d : NodeData) : Bool := hasNoGenCase d.type

/-- An IfThenElse node with a child, followed by a constant. -/
def ifThenElseSample : ASTNode :=
  .node ⟨.AST_IFTHENELSE, .T_RETURNVAL, .V_GLOBAL, 0, none, false⟩
    condLt10 (intConst 1) (intConst 2) (intConst 3)

/-- A statement list of `n` calls `printStr("s")`. -/
def literalChain : Nat → ASTNode
  | 0 => .null
  | n + 1 => call1 "printStr" (strConst "\"s\"" (n : Int)) (literalChain n)

/-- A program of 101 statements `printStr("s")`. -/
def tooManyLiterals : ASTNode := .node programData .null .null (literalChain 101) .null

/-- The data of an Expression node with the operator code of `*` (42). -/
def timesData : NodeData := ⟨.AST_EXPRESSION, .T_RETURNVAL, .V_GLOBAL, 42, none, false⟩

/-- The data of a RelationalExpression node with the operator code of `?` (63). -/
def queryRelData : NodeData := ⟨.AST_RELEXPR, .T_RETURNVAL, .V_GLOBAL, 63, none, false⟩

/-- The data of an Assignment to `v` whose storage class is the undefined value 9. -/
def oddAssignData : NodeData := ⟨.AST_ASSIGNMENT, .T_INT, .V_OTHER 9, 0, some "v", false⟩

/-- The data of a VariableRef to `v` whose storage class is the undefined value 9. -/
def oddRefData : NodeData := ⟨.AST_VARREF, .T_INT, .V_OTHER 9, 0, some "v", false⟩

/-! ## Definitions for the collector's indices and the loads of literals -/

/-- The text of a qualifying literal in the words of the specification (section 4.3): the
node is a Constant node of value type String whose text is present and begins with the quote
character. -/
def constLiteralText (d : NodeData) : Option String :=
  if d.type = .AST_CONSTANT then literalText d else none

/-- The texts of the qualifying literals in the words of the specification, in traversal
order: child slots 0, 1, 2, then the node itself, then its `next` chain. -/
def constLits : ASTNode → List String
  | .null => []
  | .node d c0 c1 c2 nx =>
    constLits c0 ++ constLits c1 ++ constLits c2 ++ (constLiteralText d).toList ++ constLits nx

/-- Whether every node of the tree that passes the collector's test (value type String, text
present and beginning with a quote) is a Constant node. -/
def quotedOnlyInConstants : ASTNode → Bool
  | .null => true
  | .node d c0 c1 c2 nx =>
    quotedOnlyInConstants c0 && quotedOnlyInConstants c1 && quotedOnlyInConstants c2
      && ((literalText d).isNone || decide (d.type = .AST_CONSTANT))
      && quotedOnlyInConstants nx

/-- A program `f("b")` whose Argument node has itself value type String and the text `"a"`:
the Argument node is not a Constant node, its child is. -/
def quotedArgumentOverLiteral : ASTNode :=
  .node programData .null .null
    (.node ⟨.AST_FUNCALL, .T_RETURNVAL, .V_GLOBAL, 0, some "f", false⟩
      (.node ⟨.AST_ARGUMENT, .T_STRING, .V_GLOBAL, 0, some "\"a\"", false⟩
        (strConst "\"b\"" 0) .null .null .null)
      .null .null .null)
    .null

end Astree

/-! # Theorems -/

namespace Astree

theorem wrap32_of_isInt32 {x : Int} (h : isInt32 x) : wrap32 x = x := by
  unfold isInt32 at h
  unfold wrap32
  omega

theorem declFrom_append (n : Nat) (a b : List String) :
    declFrom n (a ++ b) = declFrom n a ++ declFrom (n + a.length) b := by
  induction a generalizing n with
  | nil => simp [declFrom]
  | cons x xs ih =>
    have e : n + 1 + xs.length = n + (xs.length + 1) := by omega
    rw [List.cons_append, declFrom, declFrom, ih, List.length_cons, e, List.cons_append]

theorem declFrom_length (n : Nat) (a : List String) : (declFrom n a).length = a.length := by
  induction a generalizing n with
  | nil => rfl
  | cons x xs ih => simp [declFrom, ih]

theorem declFrom_getElem? (n : Nat) (a : List String) (k : Nat) (t : String)
    (h : a[k]? = some t) : (declFrom n a)[k]? = some (Asm.strDecl ((n + k : Nat) : Int) (some t)) := by
  induction a generalizing n k with
  | nil => simp at h
  | cons x xs ih =>
    cases k with
    | zero =>
      simp only [List.getElem?_cons_zero, Option.some.injEq] at h
      simp [declFrom, h]
    | succ k =>
      simp only [List.getElem?_cons_succ] at h
      have e : n + 1 + k = n + (k + 1) := by omega
      have := ih (n + 1) k h
      simp only [declFrom, List.getElem?_cons_succ, this, e]

/-- The node's own step of the collector, started with the counter at `n`. -/
theorem grabOwn_spec (d : NodeData) (s : GenState) (n : Nat) (hn : s.lastStringIndex = n)
    (hb : n + (literalText d).toList.length ≤ 2147483647) :
    (grabOwn d s).2 = declFrom n (literalText d).toList
    ∧ (grabOwn d s).1.lastStringIndex = ((n + (literalText d).toList.length : Nat) : Int)
    ∧ (grabOwn d s).1.labelCount = s.labelCount ∧ (grabOwn d s).1.lid = s.lid := by
  unfold grabOwn literalText
  unfold literalText at hb
  by_cases hv : d.valType = .T_STRING
  · simp only [hv, if_true] at hb ⊢
    cases hs : d.strval with
    | none => simp [declFrom, hn]
    | some str =>
      simp only [hs] at hb ⊢
      by_cases hq : startsWithQuote str = true
      · simp only [hq, if_true, Option.toList_some, List.length_singleton] at hb ⊢
        simp only [addString, declFrom, hn, if_true]
        refine ⟨trivial, ?_, trivial, trivial⟩
        unfold wrap32
        omega
      · simp [hq, declFrom, hn]
  · simp [hv, declFrom, hn]

/-- The collector, started with the counter at `n`, numbers the nodes passing its test
`n, n+1, ...` in traversal order and leaves the label counters alone. -/
theorem grabStrings_spec (t : ASTNode) :
    ∀ (s : GenState) (n : Nat), s.lastStringIndex = n →
      n + (stringLits t).length ≤ 2147483647 →
      (grabStrings t s).2 = declFrom n (stringLits t)
      ∧ (grabStrings t s).1.lastStringIndex = ((n + (stringLits t).length : Nat) : Int)
      ∧ (grabStrings t s).1.labelCount = s.labelCount ∧ (grabStrings t s).1.lid = s.lid := by
  induction t with
  | null => intro s n hn _; simp [grabStrings, stringLits, declFrom, hn]
  | node d c0 c1 c2 nx ih0 ih1 ih2 ihn =>
    intro s n hn hb
    simp only [stringLits, List.length_append] at hb
    obtain ⟨a0, b0, l0, m0⟩ := ih0 s n hn (by omega)
    obtain ⟨a1, b1, l1, m1⟩ := ih1 _ _ b0 (by omega)
    obtain ⟨a2, b2, l2, m2⟩ := ih2 _ _ b1 (by omega)
    obtain ⟨ao, bo, lo, mo⟩ := grabOwn_spec d _ _ b2 (by omega)
    obtain ⟨an, bn, ln, mn⟩ := ihn _ _ bo (by omega)
    simp only [grabStrings, stringLits, declFrom_append, List.length_append]
    refine ⟨?_, ?_, ?_, ?_⟩
    · rw [a0, a1, a2, ao, an]
      simp only [Nat.add_assoc]
    · rw [bn]; congr 1; omega
    · rw [ln, lo, l2, l1, l0]
    · rw [mn, mo, m2, m1, m0]

theorem gen_program (d : NodeData) (c0 c1 c2 nx : ASTNode) (hval : Int) (s : GenState)
    (hd : d.type = .AST_PROGRAM) :
    genCodeFromASTree (.node d c0 c1 c2 nx) hval s =
      (let rs := grabStrings (.node d c0 c1 c2 nx) { s with lastStringIndex := 0 }
       let g0 := genCodeFromASTree c0 0 rs.1
       let g2 := genCodeFromASTree c2 0 g0.1
       let g1 := genCodeFromASTree c1 0 g2.1
       let rn := genCodeFromASTree nx 0 g1.1
       (rn.1, [Asm.indent (levelPrefix hval)]
                ++ (programHeader ++ rs.2 ++ globalsHeader ++ g0.2 ++ textHeader ++ g2.2
                      ++ exitSequence ++ g1.2 ++ libraryFunctions) ++ rn.2)) := by
  rw [genCodeFromASTree]
  simp only [hd]

/-! ## The indices assigned by the collector -/

theorem constLits_eq_stringLits (t : ASTNode) (h : quotedOnlyInConstants t = true) :
    constLits t = stringLits t := by
  induction t with
  | null => rfl
  | node d c0 c1 c2 nx ih0 ih1 ih2 ihn =>
    simp only [quotedOnlyInConstants, Bool.and_eq_true, Bool.or_eq_true, decide_eq_true_eq] at h
    obtain ⟨⟨⟨⟨h0, h1⟩, h2⟩, ho⟩, hn⟩ := h
    simp only [constLits, stringLits, ih0 h0, ih1 h1, ih2 h2, ihn hn]
    congr 2
    unfold constLiteralText
    rcases ho with ho | ho
    · cases hl : literalText d with
      | none => simp
      | some x => rw [hl] at ho; simp at ho
    · simp [ho]

/-- C1 (counterexample): in the program `f("b")` whose Argument node has itself value type
String and the text `"a"`, the only qualifying literal (a Constant node of value type String
with quoted text) is `"b"`, yet the collector writes two lines, `.SC0` for `"b"` and `.SC1`
for the text of the Argument node. -/
theorem C1_counterexample :
    constLits quotedArgumentOverLiteral = ["\"b\""]
    ∧ (grabStrings quotedArgumentOverLiteral { initState with lastStringIndex := 0 }).2
        = [Asm.strDecl 0 (some "\"b\""), Asm.strDecl 1 (some "\"a\"")]
    ∧ stringRefs (genCodeFromASTree quotedArgumentOverLiteral 0 initState).2
        = [Asm.strDecl 0 (some "\"b\""), Asm.strDecl 1 (some "\"a\""), Asm.laSC .t0 0] := by
  decide

/-- C1 (amended): for a tree rooted at a Program node with at most 100 nodes that pass the
collector's test (value type String, text present and beginning with a quote, whatever the
node's kind) and any prior value of `lastStringIndex`, `genCodeFromASTree` sets the counter
to 0 and runs the collector, whose lines follow the program header; the collector writes
exactly one line per such node, the line at position `k` being `.SC<k>: .string <text>` with
the text of the `k`-th such node in traversal order (children 0, 1, 2, the node, `next`), and
the counter ends at the number of these nodes. When every node passing the test is a Constant
node, these nodes are exactly the qualifying literals of the specification. -/
theorem C1_collector_indices_dense (d : NodeData) (c0 c1 c2 nx : ASTNode) (hval : Int)
    (s : GenState) (hd : d.type = .AST_PROGRAM)
    (hm : (stringLits (.node d c0 c1 c2 nx)).length ≤ 100) :
    (∃ rest, (genCodeFromASTree (.node d c0 c1 c2 nx) hval s).2
        = Asm.indent (levelPrefix hval) :: (programHeader
            ++ (grabStrings (.node d c0 c1 c2 nx) { s with lastStringIndex := 0 }).2
            ++ globalsHeader ++ rest))
    ∧ (grabStrings (.node d c0 c1 c2 nx) { s with lastStringIndex := 0 }).2.length
        = (stringLits (.node d c0 c1 c2 nx)).length
    ∧ (∀ (k : Nat) (t : String), (stringLits (.node d c0 c1 c2 nx))[k]? = some t →
        (grabStrings (.node d c0 c1 c2 nx) { s with lastStringIndex := 0 }).2[k]?
          = some (Asm.strDecl (k : Int) (some t)))
    ∧ (grabStrings (.node d c0 c1 c2 nx) { s with lastStringIndex := 0 }).1.lastStringIndex
        = ((stringLits (.node d c0 c1 c2 nx)).length : Int)
    ∧ (quotedOnlyInConstants (.node d c0 c1 c2 nx) = true →
        constLits (.node d c0 c1 c2 nx) = stringLits (.node d c0 c1 c2 nx)) := by
  obtain ⟨hout, hidx, _, _⟩ :=
    grabStrings_spec (.node d c0 c1 c2 nx) { s with lastStringIndex := 0 } 0 rfl (by omega)
  refine ⟨?_, ?_, ?_, ?_, constLits_eq_stringLits _⟩
  · rw [gen_program d c0 c1 c2 nx hval s hd]
    simp only [List.singleton_append, List.cons_append, List.append_assoc]
    exact ⟨_, rfl⟩
  · rw [hout, declFrom_length]
  · intro k t hk
    rw [hout, declFrom_getElem? 0 _ k t hk]
    simp
  · rw [hidx]; simp

theorem C1_collector_indices_dense_witness :
    (stringLits threeLiterals).length ≤ 100
    ∧ (grabStrings threeLiterals { initState with lastStringIndex := 0 }).1.lastStringIndex = 3
    ∧ (grabStrings threeLiterals { initState with lastStringIndex := 0 }).2[1]?
        = some (Asm.strDecl 1 (some "\"S1\""))
    ∧ constLits threeLiterals = stringLits threeLiterals :=
  ⟨by decide,
   (C1_collector_indices_dense programData .null .null threeLiteralsBody .null 0
      { initState with lastStringIndex := 7 } rfl (by decide)).2.2.2.1,
   (C1_collector_indices_dense programData .null .null threeLiteralsBody .null 0
      { initState with lastStringIndex := 7 } rfl (by decide)).2.2.1 1 "\"S1\"" (by decide),
   (C1_collector_indices_dense programData .null .null threeLiteralsBody .null 0
      { initState with lastStringIndex := 7 } rfl (by decide)).2.2.2.2 (by decide)⟩

/-- C3: for every IfThen node (any condition, then-branch and else-branch subtrees, the
else-branch possibly absent) and every state of the globals, the output is: the condition's
code, the else-branch's code, the jump `b .LL<n>`, the label `.LL<lid>:`, the then-branch's
code and the end label `.LL<n>:`, with the same `n` (the second identifier drawn from
`getUniqueLabelID`) in the jump and in the end label. -/
theorem C3_ifthen_jump_matches_end_label (d : NodeData) (c0 c1 c2 nx : ASTNode) (hval : Int)
    (s : GenState) (hd : d.type = .AST_IFTHEN) :
    let n := (getUniqueLabelID (getUniqueLabelID s).2).1
    let g0 := genCodeFromASTree c0 0 (getUniqueLabelID (getUniqueLabelID s).2).2
    let g2 := genCodeFromASTree c2 0 g0.1
    let g1 := genCodeFromASTree c1 0 g2.1
    (genCodeFromASTree (.node d c0 c1 c2 nx) hval s).2
      = [Asm.indent (levelPrefix hval), Asm.txt "\t#--ifthenelse--\n"] ++ g0.2
          ++ [Asm.txt "\t#--else--\n"] ++ g2.2
          ++ [Asm.jump n, Asm.label s.lid, Asm.txt "\t#--if--\n"] ++ g1.2
          ++ [Asm.label n, Asm.txt "\t#--endif--\n"] ++ (genCodeFromASTree nx 0 g1.1).2 := by
  intro n g0 g2 g1
  rw [genCodeFromASTree]
  simp only [hd, getUniqueLabelID, n, g0, g2, g1]
  simp only [List.singleton_append, List.cons_append, List.append_assoc, List.nil_append]

theorem C3_ifthen_jump_matches_end_label_witness :
    controlFlow (genCodeFromASTree ifWithLoop 0 initState).2
      = [Asm.branch "blt" .t1 .t0 100, Asm.jump 101, Asm.label 100, Asm.jump 103,
         Asm.label 102, Asm.label 103, Asm.branch "blt" .t1 .t0 101, Asm.label 101] := by
  rw [ifWithLoop, C3_ifthen_jump_matches_end_label ifThenData condLt10 (whileLt10 .null) .null
    .null 0 initState rfl]
  decide

/-- C4 (failing input): in a program of two empty loops `while (i < 10)` generated from the
initial state, the second loop defines `.LL102` at the start of its body and `.LL103` before
its condition, but the branch of its condition goes to `.LL101`, the condition label of the
first loop. -/
theorem C4_second_loop_branches_to_first_loop :
    controlFlow (genCodeFromASTree twoWhiles 0 initState).2
      = [Asm.jump 101, Asm.label 100, Asm.label 101, Asm.branch "blt" .t1 .t0 100,
         Asm.jump 103, Asm.label 102, Asm.label 103, Asm.branch "blt" .t1 .t0 101] := by
  decide

/-- The output for a While node whose condition is a RelationalExpression, in any state: the
loop body starts at the label `.LL<lid>`, while the branch of the condition goes to
`.LL<labelCount>`, the value of the other counter once the body and the operands are
generated. -/
theorem while_relexpr_output (d dc : NodeData) (lhs rhs cc2 cnx body c2 nx : ASTNode)
    (hval : Int) (s : GenState) (hd : d.type = .AST_WHILE) (hc : dc.type = .AST_RELEXPR) :
    let gb := genCodeFromASTree body 0 (getUniqueLabelID (getUniqueLabelID s).2).2
    let gl := genCodeFromASTree lhs 0 gb.1
    let gr := genCodeFromASTree rhs 0 gl.1
    let gc := genCodeFromASTree cnx 0 { gr.1 with labelCount := wrap32 (gr.1.labelCount + 1) }
    (genCodeFromASTree (.node d (.node dc lhs rhs cc2 cnx) body c2 nx) hval s).2
      = [Asm.indent (levelPrefix hval), Asm.txt "\t#--while-loop--\n",
         Asm.jump (wrap32 (s.lid + 1)), Asm.label s.lid, Asm.txt "\t#--loop-body--\n"]
        ++ gb.2
        ++ [Asm.txt "\t#--loop-condition--\n", Asm.label (wrap32 (s.lid + 1)),
            Asm.indent (levelPrefix 0), Asm.relComment dc.ival]
        ++ gl.2 ++ pushT0 ++ gr.2
        ++ [Asm.lw .t1 0 .sp, Asm.addi .sp .sp 4,
            Asm.branch (relopInstr dc.ival) .t1 .t0 gr.1.labelCount]
        ++ gc.2 ++ [Asm.txt "\t#--end-loop--\n"] ++ (genCodeFromASTree nx 0 gc.1).2 := by
  intro gb gl gr gc
  rw [genCodeFromASTree]
  simp only [hd, getUniqueLabelID]
  rw [genCodeFromASTree]
  simp only [hc, gb, gl, gr, gc, getUniqueLabelID]
  simp only [List.singleton_append, List.cons_append, List.append_assoc, List.nil_append]

/-- C5: generated with `lid = 100` and `labelCount = 100`, the loop `while (i < 10)` with an
absent body gives exactly the output below: one jump `b`, to `.LL101`, the label defined
just before the condition's code; one conditional branch, `blt`, to `.LL100`, the label
defined just before the (empty) loop body; and the two label definitions `.LL100:` and
`.LL101:`. -/
theorem C5_empty_while_labels (s : GenState) :
    (genCodeFromASTree (whileLt10 .null) 0 { s with labelCount := 100, lid := 100 }).2
      = [Asm.indent "", Asm.txt "\t#--while-loop--\n", Asm.jump 101, Asm.label 100,
         Asm.txt "\t#--loop-body--\n", Asm.txt "\t#--loop-condition--\n", Asm.label 101,
         Asm.indent "", Asm.relComment 60,
         Asm.indent "", Asm.lwSym .t0 (some "i"),
         Asm.addi .sp .sp (-4), Asm.sw .t0 0 .sp,
         Asm.indent "", Asm.li .t0 10,
         Asm.lw .t1 0 .sp, Asm.addi .sp .sp 4, Asm.branch "blt" .t1 .t0 100,
         Asm.txt "\t#--end-loop--\n"]
    ∧ jumpTargets
        (genCodeFromASTree (whileLt10 .null) 0 { s with labelCount := 100, lid := 100 }).2
        = [101]
    ∧ branches
        (genCodeFromASTree (whileLt10 .null) 0 { s with labelCount := 100, lid := 100 }).2
        = [("blt", 100)]
    ∧ labelDefs
        (genCodeFromASTree (whileLt10 .null) 0 { s with labelCount := 100, lid := 100 }).2
        = [100, 101] := by
  have h : (genCodeFromASTree (whileLt10 .null) 0 { s with labelCount := 100, lid := 100 }).2
      = [Asm.indent "", Asm.txt "\t#--while-loop--\n", Asm.jump 101, Asm.label 100,
         Asm.txt "\t#--loop-body--\n", Asm.txt "\t#--loop-condition--\n", Asm.label 101,
         Asm.indent "", Asm.relComment 60,
         Asm.indent "", Asm.lwSym .t0 (some "i"),
         Asm.addi .sp .sp (-4), Asm.sw .t0 0 .sp,
         Asm.indent "", Asm.li .t0 10,
         Asm.lw .t1 0 .sp, Asm.addi .sp .sp 4, Asm.branch "blt" .t1 .t0 100,
         Asm.txt "\t#--end-loop--\n"] := rfl
  rw [h]
  exact ⟨rfl, rfl, rfl, rfl⟩

theorem labelDefs_nil : labelDefs [] = [] := rfl

theorem labelDefs_append (a b : List Asm) : labelDefs (a ++ b) = labelDefs a ++ labelDefs b := by
  simp [labelDefs, List.filterMap_append]

theorem labelDefs_cons (a : Asm) (l : List Asm) :
    labelDefs (a :: l) = (match a with | .label n => [n] | _ => []) ++ labelDefs l := by
  cases a <;> simp [labelDefs, List.filterMap_cons]

theorem labelDefs_declFrom (n : Nat) (l : List String) : labelDefs (declFrom n l) = [] := by
  induction l generalizing n with
  | nil => rfl
  | cons x xs ih => rw [declFrom, labelDefs_cons]; simp [ih]

theorem grabOwn_frame (d : NodeData) (s : GenState) :
    (grabOwn d s).1.lid = s.lid ∧ (grabOwn d s).1.labelCount = s.labelCount
    ∧ labelDefs (grabOwn d s).2 = [] := by
  unfold grabOwn
  split_ifs
  · split
    · split_ifs
      · exact ⟨rfl, rfl, rfl⟩
      · exact ⟨rfl, rfl, rfl⟩
    · exact ⟨rfl, rfl, rfl⟩
  · exact ⟨rfl, rfl, rfl⟩

theorem grabStrings_frame (t : ASTNode) : ∀ s : GenState,
    (grabStrings t s).1.lid = s.lid ∧ (grabStrings t s).1.labelCount = s.labelCount
    ∧ labelDefs (grabStrings t s).2 = [] := by
  induction t with
  | null => intro s; exact ⟨rfl, rfl, rfl⟩
  | node d c0 c1 c2 nx ih0 ih1 ih2 ihn =>
    intro s
    obtain ⟨a0, b0, e0⟩ := ih0 s
    obtain ⟨a1, b1, e1⟩ := ih1 (grabStrings c0 s).1
    obtain ⟨a2, b2, e2⟩ := ih2 (grabStrings c1 (grabStrings c0 s).1).1
    obtain ⟨ao, bo, eo⟩ := grabOwn_frame d (grabStrings c2 (grabStrings c1 (grabStrings c0 s).1).1).1
    obtain ⟨an, bn, en⟩ := ihn (grabOwn d (grabStrings c2 (grabStrings c1 (grabStrings c0 s).1).1).1).1
    simp only [grabStrings, labelDefs_append]
    refine ⟨?_, ?_, ?_⟩
    · rw [an, ao, a2, a1, a0]
    · rw [bn, bo, b2, b1, b0]
    · rw [e0, e1, e2, eo, en]; rfl

theorem labelDefs_programHeader : labelDefs programHeader = [] := rfl
theorem labelDefs_globalsHeader : labelDefs globalsHeader = [] := rfl
theorem labelDefs_textHeader : labelDefs textHeader = [] := rfl
theorem labelDefs_exitSequence : labelDefs exitSequence = [] := rfl
theorem labelDefs_libraryFunctions : labelDefs libraryFunctions = [] := rfl
theorem labelDefs_prologue : labelDefs prologue = [] := rfl
theorem labelDefs_epilogue : labelDefs epilogue = [] := rfl
theorem labelDefs_pushT0 : labelDefs pushT0 = [] := rfl

theorem labelSpec_AST_PROGRAM (vt : DataType) (vk : VarKind) (iv : Int)
    (sv : Option String) (nf : Bool) (c0 c1 c2 nx : ASTNode) (ih0 : LabelSpec c0)
    (ih1 : LabelSpec c1) (ih2 : LabelSpec c2) (ihn : LabelSpec nx) :
    LabelSpec (.node ⟨.AST_PROGRAM, vt, vk, iv, sv, nf⟩ c0 c1 c2 nx) := by
  unfold LabelSpec
  intro hval s hI hB
  rw [genCodeFromASTree]
  suffices h : ∀ x : Int, _ ∧ _ from ⟨(h 0).1, fun x => (h x).2⟩
  intro x
  simp only [countLabelNodes] at hB ⊢
  push_cast at hB ⊢
  obtain ⟨fl, _, fe⟩ := grabStrings_frame
    (.node ⟨.AST_PROGRAM, vt, vk, iv, sv, nf⟩ c0 c1 c2 nx) { s with lastStringIndex := 0 }
  dsimp only at fl
  generalize grabStrings _ _ = rs at fl fe ⊢
  obtain ⟨a0, r0⟩ := ih0 0 rs.1 (by omega) (by omega)
  generalize genCodeFromASTree _ 0 rs.1 = g0 at a0 r0 ⊢
  obtain ⟨a2, r2⟩ := ih2 0 g0.1 (by omega) (by omega)
  generalize genCodeFromASTree _ 0 g0.1 = g2 at a2 r2 ⊢
  obtain ⟨a1, r1⟩ := ih1 0 g2.1 (by omega) (by omega)
  generalize genCodeFromASTree _ 0 g2.1 = g1 at a1 r1 ⊢
  obtain ⟨an, rn⟩ := ihn 0 g1.1 (by omega) (by omega)
  generalize genCodeFromASTree _ 0 g1.1 = gn at an rn ⊢
  simp only [labelDefs_append, fe]
  refine ⟨by omega, ?_⟩
  have q0 := r0 x
  have q2 := r2 x
  have q1 := r1 x
  have qn := rn x
  simp only [labelDefs_append, labelDefs_cons, labelDefs_nil, List.count_append,
    List.count_cons, List.count_nil, List.nil_append, List.append_nil, beq_iff_eq,
    labelDefs_programHeader, labelDefs_globalsHeader, labelDefs_textHeader,
    labelDefs_exitSequence, labelDefs_libraryFunctions, labelDefs_prologue,
    labelDefs_epilogue, labelDefs_pushT0]
  omega

theorem labelSpec_AST_VARDECL (vt : DataType) (vk : VarKind) (iv : Int)
    (sv : Option String) (nf : Bool) (c0 c1 c2 nx : ASTNode) (ih0 : LabelSpec c0)
    (_ih1 : LabelSpec c1) (_ih2 : LabelSpec c2) (ihn : LabelSpec nx) :
    LabelSpec (.node ⟨.AST_VARDECL, vt, vk, iv, sv, nf⟩ c0 c1 c2 nx) := by
  unfold LabelSpec
  intro hval s hI hB
  rw [genCodeFromASTree]
  suffices h : ∀ x : Int, _ ∧ _ from ⟨(h 0).1, fun x => (h x).2⟩
  intro x
  simp only [countLabelNodes] at hB ⊢
  by_cases h1 : vt = DataType.T_INT
  · simp only [h1, if_true] at hB ⊢
    push_cast at hB ⊢
    by_cases h2 : iv > 0
    · simp only [h2, if_true] at hB ⊢
      obtain ⟨an, rn⟩ := ihn 0 s (by omega) (by omega)
      generalize genCodeFromASTree _ 0 s = gn at an rn ⊢
      refine ⟨by omega, ?_⟩
      have qn := rn x
      simp only [labelDefs_append, labelDefs_cons, labelDefs_nil, List.count_append,
        List.count_cons, List.count_nil, List.nil_append, List.append_nil, beq_iff_eq,
        labelDefs_programHeader, labelDefs_globalsHeader, labelDefs_textHeader,
        labelDefs_exitSequence, labelDefs_libraryFunctions, labelDefs_prologue,
        labelDefs_epilogue, labelDefs_pushT0]
      omega
    · simp only [h2, if_false] at hB ⊢
      obtain ⟨an, rn⟩ := ihn 0 s (by omega) (by omega)
      generalize genCodeFromASTree _ 0 s = gn at an rn ⊢
      refine ⟨by omega, ?_⟩
      have qn := rn x
      simp only [labelDefs_append, labelDefs_cons, labelDefs_nil, List.count_append,
        List.count_cons, List.count_nil, List.nil_append, List.append_nil, beq_iff_eq,
        labelDefs_programHeader, labelDefs_globalsHeader, labelDefs_textHeader,
        labelDefs_exitSequence, labelDefs_libraryFunctions, labelDefs_prologue,
        labelDefs_epilogue, labelDefs_pushT0]
      omega
  · simp only [h1, if_false] at hB ⊢
    by_cases h2 : vt = DataType.T_STRING
    · simp only [h2, if_true] at hB ⊢
      push_cast at hB ⊢
      obtain ⟨a0, r0⟩ := ih0 0 s (by omega) (by omega)
      generalize genCodeFromASTree _ 0 s = g0 at a0 r0 ⊢
      obtain ⟨an, rn⟩ := ihn 0 g0.1 (by omega) (by omega)
      generalize genCodeFromASTree _ 0 g0.1 = gn at an rn ⊢
      refine ⟨by omega, ?_⟩
      have q0 := r0 x
      have qn := rn x
      simp only [labelDefs_append, labelDefs_cons, labelDefs_nil, List.count_append,
        List.count_cons, List.count_nil, List.nil_append, List.append_nil, beq_iff_eq,
        labelDefs_programHeader, labelDefs_globalsHeader, labelDefs_textHeader,
        labelDefs_exitSequence, labelDefs_libraryFunctions, labelDefs_prologue,
        labelDefs_epilogue, labelDefs_pushT0]
      omega
    · simp only [h2, if_false] at hB ⊢
      push_cast at hB ⊢
      obtain ⟨an, rn⟩ := ihn 0 s (by omega) (by omega)
      generalize genCodeFromASTree _ 0 s = gn at an rn ⊢
      refine ⟨by omega, ?_⟩
      have qn := rn x
      simp only [labelDefs_append, labelDefs_cons, labelDefs_nil, List.count_append,
        List.count_cons, List.count_nil, List.nil_append, List.append_nil, beq_iff_eq,
        labelDefs_programHeader, labelDefs_globalsHeader, labelDefs_textHeader,
        labelDefs_exitSequence, labelDefs_libraryFunctions, labelDefs_prologue,
        labelDefs_epilogue, labelDefs_pushT0]
      omega

theorem labelSpec_AST_FUNCTION (vt : DataType) (vk : VarKind) (iv : Int)
    (sv : Option String) (nf : Bool) (c0 c1 c2 nx : ASTNode) (_ih0 : LabelSpec c0)
    (ih1 : LabelSpec c1) (_ih2 : LabelSpec c2) (ihn : LabelSpec nx) :
    LabelSpec (.node ⟨.AST_FUNCTION, vt, vk, iv, sv, nf⟩ c0 c1 c2 nx) := by
  unfold LabelSpec
  intro hval s hI hB
  rw [genCodeFromASTree]
  suffices h : ∀ x : Int, _ ∧ _ from ⟨(h 0).1, fun x => (h x).2⟩
  intro x
  simp only [countLabelNodes] at hB ⊢
  push_cast at hB ⊢
  obtain ⟨a1, r1⟩ := ih1 0 s (by omega) (by omega)
  generalize genCodeFromASTree _ 0 s = g1 at a1 r1 ⊢
  obtain ⟨an, rn⟩ := ihn 0 g1.1 (by omega) (by omega)
  generalize genCodeFromASTree _ 0 g1.1 = gn at an rn ⊢
  refine ⟨by omega, ?_⟩
  have q1 := r1 x
  have qn := rn x
  simp only [labelDefs_append, labelDefs_cons, labelDefs_nil, List.count_append,
    List.count_cons, List.count_nil, List.nil_append, List.append_nil, beq_iff_eq,
    labelDefs_programHeader, labelDefs_globalsHeader, labelDefs_textHeader,
    labelDefs_exitSequence, labelDefs_libraryFunctions, labelDefs_prologue,
    labelDefs_epilogue, labelDefs_pushT0]
  omega

theorem labelSpec_AST_SBLOCK (vt : DataType) (vk : VarKind) (iv : Int)
    (sv : Option String) (nf : Bool) (c0 c1 c2 nx : ASTNode) (ih0 : LabelSpec c0)
    (_ih1 : LabelSpec c1) (_ih2 : LabelSpec c2) (ihn : LabelSpec nx) :
    LabelSpec (.node ⟨.AST_SBLOCK, vt, vk, iv, sv, nf⟩ c0 c1 c2 nx) := by
  unfold LabelSpec
  intro hval s hI hB
  rw [genCodeFromASTree]
  suffices h : ∀ x : Int, _ ∧ _ from ⟨(h 0).1, fun x => (h x).2⟩
  intro x
  simp only [countLabelNodes] at hB ⊢
  push_cast at hB ⊢
  obtain ⟨a0, r0⟩ := ih0 0 s (by omega) (by omega)
  generalize genCodeFromASTree _ 0 s = g0 at a0 r0 ⊢
  obtain ⟨an, rn⟩ := ihn 0 g0.1 (by omega) (by omega)
  generalize genCodeFromASTree _ 0 g0.1 = gn at an rn ⊢
  refine ⟨by omega, ?_⟩
  have q0 := r0 x
  have qn := rn x
  simp only [labelDefs_append, labelDefs_cons, labelDefs_nil, List.count_append,
    List.count_cons, List.count_nil, List.nil_append, List.append_nil, beq_iff_eq,
    labelDefs_programHeader, labelDefs_globalsHeader, labelDefs_textHeader,
    labelDefs_exitSequence, labelDefs_libraryFunctions, labelDefs_prologue,
    labelDefs_epilogue, labelDefs_pushT0]
  omega

theorem labelSpec_AST_FUNCALL (vt : DataType) (vk : VarKind) (iv : Int)
    (sv : Option String) (nf : Bool) (c0 c1 c2 nx : ASTNode) (ih0 : LabelSpec c0)
    (_ih1 : LabelSpec c1) (_ih2 : LabelSpec c2) (ihn : LabelSpec nx) :
    LabelSpec (.node ⟨.AST_FUNCALL, vt, vk, iv, sv, nf⟩ c0 c1 c2 nx) := by
  unfold LabelSpec
  intro hval s hI hB
  rw [genCodeFromASTree]
  suffices h : ∀ x : Int, _ ∧ _ from ⟨(h 0).1, fun x => (h x).2⟩
  intro x
  simp only [countLabelNodes] at hB ⊢
  push_cast at hB ⊢
  obtain ⟨a0, r0⟩ := ih0 0 s (by omega) (by omega)
  generalize genCodeFromASTree _ 0 s = g0 at a0 r0 ⊢
  obtain ⟨an, rn⟩ := ihn 0 g0.1 (by omega) (by omega)
  generalize genCodeFromASTree _ 0 g0.1 = gn at an rn ⊢
  refine ⟨by omega, ?_⟩
  have q0 := r0 x
  have qn := rn x
  simp only [labelDefs_append, labelDefs_cons, labelDefs_nil, List.count_append,
    List.count_cons, List.count_nil, List.nil_append, List.append_nil, beq_iff_eq,
    labelDefs_programHeader, labelDefs_globalsHeader, labelDefs_textHeader,
    labelDefs_exitSequence, labelDefs_libraryFunctions, labelDefs_prologue,
    labelDefs_epilogue, labelDefs_pushT0]
  omega

theorem labelSpec_AST_ARGUMENT (vt : DataType) (vk : VarKind) (iv : Int)
    (sv : Option String) (nf : Bool) (c0 c1 c2 nx : ASTNode) (ih0 : LabelSpec c0)
    (_ih1 : LabelSpec c1) (_ih2 : LabelSpec c2) (ihn : LabelSpec nx) :
    LabelSpec (.node ⟨.AST_ARGUMENT, vt, vk, iv, sv, nf⟩ c0 c1 c2 nx) := by
  unfold LabelSpec
  intro hval s hI hB
  rw [genCodeFromASTree]
  suffices h : ∀ x : Int, _ ∧ _ from ⟨(h 0).1, fun x => (h x).2⟩
  intro x
  simp only [countLabelNodes] at hB ⊢
  push_cast at hB ⊢
  obtain ⟨a0, r0⟩ := ih0 0 s (by omega) (by omega)
  generalize genCodeFromASTree _ 0 s = g0 at a0 r0 ⊢
  obtain ⟨an, rn⟩ := ihn 0 g0.1 (by omega) (by omega)
  generalize genCodeFromASTree _ 0 g0.1 = gn at an rn ⊢
  refine ⟨by omega, ?_⟩
  have q0 := r0 x
  have qn := rn x
  simp only [labelDefs_append, labelDefs_cons, labelDefs_nil, List.count_append,
    List.count_cons, List.count_nil, List.nil_append, List.append_nil, beq_iff_eq,
    labelDefs_programHeader, labelDefs_globalsHeader, labelDefs_textHeader,
    labelDefs_exitSequence, labelDefs_libraryFunctions, labelDefs_prologue,
    labelDefs_epilogue, labelDefs_pushT0]
  omega

theorem labelSpec_AST_ASSIGNMENT (vt : DataType) (vk : VarKind) (iv : Int)
    (sv : Option String) (nf : Bool) (c0 c1 c2 nx : ASTNode) (ih0 : LabelSpec c0)
    (ih1 : LabelSpec c1) (_ih2 : LabelSpec c2) (ihn : LabelSpec nx) :
    LabelSpec (.node ⟨.AST_ASSIGNMENT, vt, vk, iv, sv, nf⟩ c0 c1 c2 nx) := by
  unfold LabelSpec
  intro hval s hI hB
  rw [genCodeFromASTree]
  suffices h : ∀ x : Int, _ ∧ _ from ⟨(h 0).1, fun x => (h x).2⟩
  intro x
  simp only [countLabelNodes] at hB ⊢
  by_cases hk : vk = VarKind.V_GLARRAY
  · subst hk
    simp only [if_true, reduceCtorEq, if_false, or_self] at hB ⊢
    push_cast at hB ⊢
    obtain ⟨a0, r0⟩ := ih0 1 s (by omega) (by omega)
    generalize genCodeFromASTree _ 1 s = g0 at a0 r0 ⊢
    obtain ⟨a1, r1⟩ := ih1 1 g0.1 (by omega) (by omega)
    generalize genCodeFromASTree _ 1 g0.1 = g1 at a1 r1 ⊢
    obtain ⟨an, rn⟩ := ihn 0 g1.1 (by omega) (by omega)
    generalize genCodeFromASTree _ 0 g1.1 = gn at an rn ⊢
    refine ⟨by omega, ?_⟩
    have q0 := r0 x
    have q1 := r1 x
    have qn := rn x
    simp only [labelDefs_append, labelDefs_cons, labelDefs_nil, List.count_append,
      List.count_cons, List.count_nil, List.nil_append, List.append_nil, beq_iff_eq,
      labelDefs_programHeader, labelDefs_globalsHeader, labelDefs_textHeader,
      labelDefs_exitSequence, labelDefs_libraryFunctions, labelDefs_prologue,
      labelDefs_epilogue, labelDefs_pushT0]
    omega
  · simp only [hk, if_false] at hB ⊢
    push_cast at hB ⊢
    obtain ⟨a0, r0⟩ := ih0 1 s (by omega) (by omega)
    generalize genCodeFromASTree _ 1 s = g0 at a0 r0 ⊢
    have q0 := r0 x
    split_ifs
    · obtain ⟨an, rn⟩ := ihn 0 g0.1 (by omega) (by omega)
      generalize genCodeFromASTree _ 0 g0.1 = gn at an rn ⊢
      refine ⟨by omega, ?_⟩
      have qn := rn x
      simp only [labelDefs_append, labelDefs_cons, labelDefs_nil, List.count_append,
        List.count_cons, List.count_nil, List.nil_append, List.append_nil, beq_iff_eq,
        labelDefs_programHeader, labelDefs_globalsHeader, labelDefs_textHeader,
        labelDefs_exitSequence, labelDefs_libraryFunctions, labelDefs_prologue,
        labelDefs_epilogue, labelDefs_pushT0]
      omega
    · obtain ⟨an, rn⟩ := ihn 0 g0.1 (by omega) (by omega)
      generalize genCodeFromASTree _ 0 g0.1 = gn at an rn ⊢
      refine ⟨by omega, ?_⟩
      have qn := rn x
      simp only [labelDefs_append, labelDefs_cons, labelDefs_nil, List.count_append,
        List.count_cons, List.count_nil, List.nil_append, List.append_nil, beq_iff_eq,
        labelDefs_programHeader, labelDefs_globalsHeader, labelDefs_textHeader,
        labelDefs_exitSequence, labelDefs_libraryFunctions, labelDefs_prologue,
        labelDefs_epilogue, labelDefs_pushT0]
      omega
    · obtain ⟨an, rn⟩ := ihn 0 g0.1 (by omega) (by omega)
      generalize genCodeFromASTree _ 0 g0.1 = gn at an rn ⊢
      refine ⟨by omega, ?_⟩
      have qn := rn x
      simp only [labelDefs_append, labelDefs_cons, labelDefs_nil, List.count_append,
        List.count_cons, List.count_nil, List.nil_append, List.append_nil, beq_iff_eq,
        labelDefs_programHeader, labelDefs_globalsHeader, labelDefs_textHeader,
        labelDefs_exitSequence, labelDefs_libraryFunctions, labelDefs_prologue,
        labelDefs_epilogue, labelDefs_pushT0]
      omega

theorem labelSpec_AST_WHILE (vt : DataType) (vk : VarKind) (iv : Int)
    (sv : Option String) (nf : Bool) (c0 c1 c2 nx : ASTNode) (ih0 : LabelSpec c0)
    (ih1 : LabelSpec c1) (_ih2 : LabelSpec c2) (ihn : LabelSpec nx) :
    LabelSpec (.node ⟨.AST_WHILE, vt, vk, iv, sv, nf⟩ c0 c1 c2 nx) := by
  unfold LabelSpec
  intro hval s hI hB
  rw [genCodeFromASTree]
  suffices h : ∀ x : Int, _ ∧ _ from ⟨(h 0).1, fun x => (h x).2⟩
  intro x
  simp only [countLabelNodes, getUniqueLabelID] at hB ⊢
  push_cast at hB ⊢
  have e1 : wrap32 (s.lid + 1) = s.lid + 1 := by unfold wrap32; omega
  have e2 : wrap32 (s.lid + 1 + 1) = s.lid + 2 := by unfold wrap32; omega
  rw [e1, e2]
  obtain ⟨a1, r1⟩ := ih1 0 { s with lid := s.lid + 2 } (by dsimp only; omega) (by dsimp only; omega)
  dsimp only at a1 r1
  generalize genCodeFromASTree _ 0 { s with lid := s.lid + 2 } = g1 at a1 r1 ⊢
  obtain ⟨a0, r0⟩ := ih0 0 g1.1 (by omega) (by omega)
  generalize genCodeFromASTree _ 0 g1.1 = g0 at a0 r0 ⊢
  obtain ⟨an, rn⟩ := ihn 0 g0.1 (by omega) (by omega)
  generalize genCodeFromASTree _ 0 g0.1 = gn at an rn ⊢
  refine ⟨by omega, ?_⟩
  have q1 := r1 x
  have q0 := r0 x
  have qn := rn x
  simp only [labelDefs_append, labelDefs_cons, labelDefs_nil, List.count_append,
    List.count_cons, List.count_nil, List.nil_append, List.append_nil, beq_iff_eq,
    labelDefs_programHeader, labelDefs_globalsHeader, labelDefs_textHeader,
    labelDefs_exitSequence, labelDefs_libraryFunctions, labelDefs_prologue,
    labelDefs_epilogue, labelDefs_pushT0]
  split_ifs <;> omega

theorem labelSpec_AST_IFTHEN (vt : DataType) (vk : VarKind) (iv : Int)
    (sv : Option String) (nf : Bool) (c0 c1 c2 nx : ASTNode) (ih0 : LabelSpec c0)
    (ih1 : LabelSpec c1) (ih2 : LabelSpec c2) (ihn : LabelSpec nx) :
    LabelSpec (.node ⟨.AST_IFTHEN, vt, vk, iv, sv, nf⟩ c0 c1 c2 nx) := by
  unfold LabelSpec
  intro hval s hI hB
  rw [genCodeFromASTree]
  suffices h : ∀ x : Int, _ ∧ _ from ⟨(h 0).1, fun x => (h x).2⟩
  intro x
  simp only [countLabelNodes, getUniqueLabelID] at hB ⊢
  push_cast at hB ⊢
  have e1 : wrap32 (s.lid + 1) = s.lid + 1 := by unfold wrap32; omega
  have e2 : wrap32 (s.lid + 1 + 1) = s.lid + 2 := by unfold wrap32; omega
  rw [e1, e2]
  obtain ⟨a0, r0⟩ := ih0 0 { s with lid := s.lid + 2 } (by dsimp only; omega) (by dsimp only; omega)
  dsimp only at a0 r0
  generalize genCodeFromASTree _ 0 { s with lid := s.lid + 2 } = g0 at a0 r0 ⊢
  obtain ⟨a2, r2⟩ := ih2 0 g0.1 (by omega) (by omega)
  generalize genCodeFromASTree _ 0 g0.1 = g2 at a2 r2 ⊢
  obtain ⟨a1, r1⟩ := ih1 0 g2.1 (by omega) (by omega)
  generalize genCodeFromASTree _ 0 g2.1 = g1 at a1 r1 ⊢
  obtain ⟨an, rn⟩ := ihn 0 g1.1 (by omega) (by omega)
  generalize genCodeFromASTree _ 0 g1.1 = gn at an rn ⊢
  refine ⟨by omega, ?_⟩
  have q0 := r0 x
  have q2 := r2 x
  have q1 := r1 x
  have qn := rn x
  simp only [labelDefs_append, labelDefs_cons, labelDefs_nil, List.count_append,
    List.count_cons, List.count_nil, List.nil_append, List.append_nil, beq_iff_eq,
    labelDefs_programHeader, labelDefs_globalsHeader, labelDefs_textHeader,
    labelDefs_exitSequence, labelDefs_libraryFunctions, labelDefs_prologue,
    labelDefs_epilogue, labelDefs_pushT0]
  split_ifs <;> omega

theorem labelSpec_AST_IFTHENELSE (vt : DataType) (vk : VarKind) (iv : Int)
    (sv : Option String) (nf : Bool) (c0 c1 c2 nx : ASTNode) (_ih0 : LabelSpec c0)
    (_ih1 : LabelSpec c1) (_ih2 : LabelSpec c2) (ihn : LabelSpec nx) :
    LabelSpec (.node ⟨.AST_IFTHENELSE, vt, vk, iv, sv, nf⟩ c0 c1 c2 nx) := by
  unfold LabelSpec
  intro hval s hI hB
  rw [genCodeFromASTree]
  suffices h : ∀ x : Int, _ ∧ _ from ⟨(h 0).1, fun x => (h x).2⟩
  intro x
  simp only [countLabelNodes] at hB ⊢
  push_cast at hB ⊢
  obtain ⟨an, rn⟩ := ihn 0 s (by omega) (by omega)
  generalize genCodeFromASTree _ 0 s = gn at an rn ⊢
  refine ⟨by omega, ?_⟩
  have qn := rn x
  simp only [labelDefs_append, labelDefs_cons, labelDefs_nil, List.count_append,
    List.count_cons, List.count_nil, List.nil_append, List.append_nil, beq_iff_eq,
    labelDefs_programHeader, labelDefs_globalsHeader, labelDefs_textHeader,
    labelDefs_exitSequence, labelDefs_libraryFunctions, labelDefs_prologue,
    labelDefs_epilogue, labelDefs_pushT0]
  omega

theorem labelSpec_AST_EXPRESSION (vt : DataType) (vk : VarKind) (iv : Int)
    (sv : Option String) (nf : Bool) (c0 c1 c2 nx : ASTNode) (ih0 : LabelSpec c0)
    (ih1 : LabelSpec c1) (_ih2 : LabelSpec c2) (ihn : LabelSpec nx) :
    LabelSpec (.node ⟨.AST_EXPRESSION, vt, vk, iv, sv, nf⟩ c0 c1 c2 nx) := by
  unfold LabelSpec
  intro hval s hI hB
  rw [genCodeFromASTree]
  suffices h : ∀ x : Int, _ ∧ _ from ⟨(h 0).1, fun x => (h x).2⟩
  intro x
  simp only [countLabelNodes] at hB ⊢
  push_cast at hB ⊢
  obtain ⟨a0, r0⟩ := ih0 1 s (by omega) (by omega)
  generalize genCodeFromASTree _ 1 s = g0 at a0 r0 ⊢
  obtain ⟨a1, r1⟩ := ih1 1 g0.1 (by omega) (by omega)
  generalize genCodeFromASTree _ 1 g0.1 = g1 at a1 r1 ⊢
  obtain ⟨an, rn⟩ := ihn 0 g1.1 (by omega) (by omega)
  generalize genCodeFromASTree _ 0 g1.1 = gn at an rn ⊢
  refine ⟨by omega, ?_⟩
  have q0 := r0 x
  have q1 := r1 x
  have qn := rn x
  simp only [labelDefs_append, labelDefs_cons, labelDefs_nil, List.count_append,
    List.count_cons, List.count_nil, List.nil_append, List.append_nil, beq_iff_eq,
    labelDefs_programHeader, labelDefs_globalsHeader, labelDefs_textHeader,
    labelDefs_exitSequence, labelDefs_libraryFunctions, labelDefs_prologue,
    labelDefs_epilogue, labelDefs_pushT0]
  omega

theorem labelSpec_AST_RELEXPR (vt : DataType) (vk : VarKind) (iv : Int)
    (sv : Option String) (nf : Bool) (c0 c1 c2 nx : ASTNode) (ih0 : LabelSpec c0)
    (ih1 : LabelSpec c1) (_ih2 : LabelSpec c2) (ihn : LabelSpec nx) :
    LabelSpec (.node ⟨.AST_RELEXPR, vt, vk, iv, sv, nf⟩ c0 c1 c2 nx) := by
  unfold LabelSpec
  intro hval s hI hB
  rw [genCodeFromASTree]
  suffices h : ∀ x : Int, _ ∧ _ from ⟨(h 0).1, fun x => (h x).2⟩
  intro x
  simp only [countLabelNodes] at hB ⊢
  push_cast at hB ⊢
  obtain ⟨a0, r0⟩ := ih0 0 s (by omega) (by omega)
  generalize genCodeFromASTree _ 0 s = g0 at a0 r0 ⊢
  obtain ⟨a1, r1⟩ := ih1 0 g0.1 (by omega) (by omega)
  generalize genCodeFromASTree _ 0 g0.1 = g1 at a1 r1 ⊢
  obtain ⟨an, rn⟩ := ihn 0 { g1.1 with labelCount := wrap32 (g1.1.labelCount + 1) } (by dsimp only; omega) (by dsimp only; omega)
  dsimp only at an rn
  generalize genCodeFromASTree _ 0 { g1.1 with labelCount := wrap32 (g1.1.labelCount + 1) } = gn at an rn ⊢
  refine ⟨by omega, ?_⟩
  have q0 := r0 x
  have q1 := r1 x
  have qn := rn x
  simp only [labelDefs_append, labelDefs_cons, labelDefs_nil, List.count_append,
    List.count_cons, List.count_nil, List.nil_append, List.append_nil, beq_iff_eq,
    labelDefs_programHeader, labelDefs_globalsHeader, labelDefs_textHeader,
    labelDefs_exitSequence, labelDefs_libraryFunctions, labelDefs_prologue,
    labelDefs_epilogue, labelDefs_pushT0]
  omega

theorem labelSpec_AST_VARREF (vt : DataType) (vk : VarKind) (iv : Int)
    (sv : Option String) (nf : Bool) (c0 c1 c2 nx : ASTNode) (ih0 : LabelSpec c0)
    (_ih1 : LabelSpec c1) (_ih2 : LabelSpec c2) (ihn : LabelSpec nx) :
    LabelSpec (.node ⟨.AST_VARREF, vt, vk, iv, sv, nf⟩ c0 c1 c2 nx) := by
  unfold LabelSpec
  intro hval s hI hB
  rw [genCodeFromASTree]
  suffices h : ∀ x : Int, _ ∧ _ from ⟨(h 0).1, fun x => (h x).2⟩
  intro x
  simp only [countLabelNodes] at hB ⊢
  by_cases hk : vk = VarKind.V_GLARRAY
  · subst hk
    simp only [if_true, reduceCtorEq, if_false, or_self] at hB ⊢
    push_cast at hB ⊢
    obtain ⟨a0, r0⟩ := ih0 0 s (by omega) (by omega)
    generalize genCodeFromASTree _ 0 s = g0 at a0 r0 ⊢
    obtain ⟨an, rn⟩ := ihn 0 g0.1 (by omega) (by omega)
    generalize genCodeFromASTree _ 0 g0.1 = gn at an rn ⊢
    refine ⟨by omega, ?_⟩
    have q0 := r0 x
    have qn := rn x
    simp only [labelDefs_append, labelDefs_cons, labelDefs_nil, List.count_append,
      List.count_cons, List.count_nil, List.nil_append, List.append_nil, beq_iff_eq,
      labelDefs_programHeader, labelDefs_globalsHeader, labelDefs_textHeader,
      labelDefs_exitSequence, labelDefs_libraryFunctions, labelDefs_prologue,
      labelDefs_epilogue, labelDefs_pushT0]
    omega
  · simp only [hk, if_false] at hB ⊢
    push_cast at hB ⊢
    split_ifs
    · obtain ⟨an, rn⟩ := ihn 0 s (by omega) (by omega)
      generalize genCodeFromASTree _ 0 s = gn at an rn ⊢
      refine ⟨by omega, ?_⟩
      have qn := rn x
      simp only [labelDefs_append, labelDefs_cons, labelDefs_nil, List.count_append,
        List.count_cons, List.count_nil, List.nil_append, List.append_nil, beq_iff_eq,
        labelDefs_programHeader, labelDefs_globalsHeader, labelDefs_textHeader,
        labelDefs_exitSequence, labelDefs_libraryFunctions, labelDefs_prologue,
        labelDefs_epilogue, labelDefs_pushT0]
      omega
    · obtain ⟨an, rn⟩ := ihn 0 s (by omega) (by omega)
      generalize genCodeFromASTree _ 0 s = gn at an rn ⊢
      refine ⟨by omega, ?_⟩
      have qn := rn x
      simp only [labelDefs_append, labelDefs_cons, labelDefs_nil, List.count_append,
        List.count_cons, List.count_nil, List.nil_append, List.append_nil, beq_iff_eq,
        labelDefs_programHeader, labelDefs_globalsHeader, labelDefs_textHeader,
        labelDefs_exitSequence, labelDefs_libraryFunctions, labelDefs_prologue,
        labelDefs_epilogue, labelDefs_pushT0]
      omega
    · obtain ⟨an, rn⟩ := ihn 0 s (by omega) (by omega)
      generalize genCodeFromASTree _ 0 s = gn at an rn ⊢
      refine ⟨by omega, ?_⟩
      have qn := rn x
      simp only [labelDefs_append, labelDefs_cons, labelDefs_nil, List.count_append,
        List.count_cons, List.count_nil, List.nil_append, List.append_nil, beq_iff_eq,
        labelDefs_programHeader, labelDefs_globalsHeader, labelDefs_textHeader,
        labelDefs_exitSequence, labelDefs_libraryFunctions, labelDefs_prologue,
        labelDefs_epilogue, labelDefs_pushT0]
      omega

theorem labelSpec_AST_CONSTANT (vt : DataType) (vk : VarKind) (iv : Int)
    (sv : Option String) (nf : Bool) (c0 c1 c2 nx : ASTNode) (_ih0 : LabelSpec c0)
    (_ih1 : LabelSpec c1) (_ih2 : LabelSpec c2) (ihn : LabelSpec nx) :
    LabelSpec (.node ⟨.AST_CONSTANT, vt, vk, iv, sv, nf⟩ c0 c1 c2 nx) := by
  unfold LabelSpec
  intro hval s hI hB
  rw [genCodeFromASTree]
  suffices h : ∀ x : Int, _ ∧ _ from ⟨(h 0).1, fun x => (h x).2⟩
  intro x
  simp only [countLabelNodes] at hB ⊢
  push_cast at hB ⊢
  split_ifs
  · obtain ⟨an, rn⟩ := ihn 0 s (by omega) (by omega)
    generalize genCodeFromASTree _ 0 s = gn at an rn ⊢
    refine ⟨by omega, ?_⟩
    have qn := rn x
    simp only [labelDefs_append, labelDefs_cons, labelDefs_nil, List.count_append,
      List.count_cons, List.count_nil, List.nil_append, List.append_nil, beq_iff_eq,
      labelDefs_programHeader, labelDefs_globalsHeader, labelDefs_textHeader,
      labelDefs_exitSequence, labelDefs_libraryFunctions, labelDefs_prologue,
      labelDefs_epilogue, labelDefs_pushT0]
    omega
  · obtain ⟨an, rn⟩ := ihn 0 s (by omega) (by omega)
    generalize genCodeFromASTree _ 0 s = gn at an rn ⊢
    refine ⟨by omega, ?_⟩
    have qn := rn x
    simp only [labelDefs_append, labelDefs_cons, labelDefs_nil, List.count_append,
      List.count_cons, List.count_nil, List.nil_append, List.append_nil, beq_iff_eq,
      labelDefs_programHeader, labelDefs_globalsHeader, labelDefs_textHeader,
      labelDefs_exitSequence, labelDefs_libraryFunctions, labelDefs_prologue,
      labelDefs_epilogue, labelDefs_pushT0]
    omega
  · obtain ⟨an, rn⟩ := ihn 0 s (by omega) (by omega)
    generalize genCodeFromASTree _ 0 s = gn at an rn ⊢
    refine ⟨by omega, ?_⟩
    have qn := rn x
    simp only [labelDefs_append, labelDefs_cons, labelDefs_nil, List.count_append,
      List.count_cons, List.count_nil, List.nil_append, List.append_nil, beq_iff_eq,
      labelDefs_programHeader, labelDefs_globalsHeader, labelDefs_textHeader,
      labelDefs_exitSequence, labelDefs_libraryFunctions, labelDefs_prologue,
      labelDefs_epilogue, labelDefs_pushT0]
    omega
  · obtain ⟨an, rn⟩ := ihn 0 s (by omega) (by omega)
    generalize genCodeFromASTree _ 0 s = gn at an rn ⊢
    refine ⟨by omega, ?_⟩
    have qn := rn x
    simp only [labelDefs_append, labelDefs_cons, labelDefs_nil, List.count_append,
      List.count_cons, List.count_nil, List.nil_append, List.append_nil, beq_iff_eq,
      labelDefs_programHeader, labelDefs_globalsHeader, labelDefs_textHeader,
      labelDefs_exitSequence, labelDefs_libraryFunctions, labelDefs_prologue,
      labelDefs_epilogue, labelDefs_pushT0]
    omega

theorem labelSpec_AST_UNKNOWN (code : Int) (vt : DataType) (vk : VarKind) (iv : Int)
    (sv : Option String) (nf : Bool) (c0 c1 c2 nx : ASTNode) (_ih0 : LabelSpec c0)
    (_ih1 : LabelSpec c1) (_ih2 : LabelSpec c2) (ihn : LabelSpec nx) :
    LabelSpec (.node ⟨(.AST_UNKNOWN code), vt, vk, iv, sv, nf⟩ c0 c1 c2 nx) := by
  unfold LabelSpec
  intro hval s hI hB
  rw [genCodeFromASTree]
  suffices h : ∀ x : Int, _ ∧ _ from ⟨(h 0).1, fun x => (h x).2⟩
  intro x
  simp only [countLabelNodes] at hB ⊢
  push_cast at hB ⊢
  obtain ⟨an, rn⟩ := ihn 0 s (by omega) (by omega)
  generalize genCodeFromASTree _ 0 s = gn at an rn ⊢
  refine ⟨by omega, ?_⟩
  have qn := rn x
  simp only [labelDefs_append, labelDefs_cons, labelDefs_nil, List.count_append,
    List.count_cons, List.count_nil, List.nil_append, List.append_nil, beq_iff_eq,
    labelDefs_programHeader, labelDefs_globalsHeader, labelDefs_textHeader,
    labelDefs_exitSequence, labelDefs_libraryFunctions, labelDefs_prologue,
    labelDefs_epilogue, labelDefs_pushT0]
  omega

theorem gen_labels (t : ASTNode) : LabelSpec t := by
  induction t with
  | null =>
    intro hval s _ _
    simp [genCodeFromASTree, countLabelNodes, LabelsIn, labelDefs]
  | node d c0 c1 c2 nx ih0 ih1 ih2 ihn =>
    rcases d with ⟨ty, vt, vk, iv, sv, nf⟩
    cases ty
    case AST_PROGRAM => exact labelSpec_AST_PROGRAM vt vk iv sv nf c0 c1 c2 nx ih0 ih1 ih2 ihn
    case AST_VARDECL => exact labelSpec_AST_VARDECL vt vk iv sv nf c0 c1 c2 nx ih0 ih1 ih2 ihn
    case AST_FUNCTION => exact labelSpec_AST_FUNCTION vt vk iv sv nf c0 c1 c2 nx ih0 ih1 ih2 ihn
    case AST_SBLOCK => exact labelSpec_AST_SBLOCK vt vk iv sv nf c0 c1 c2 nx ih0 ih1 ih2 ihn
    case AST_FUNCALL => exact labelSpec_AST_FUNCALL vt vk iv sv nf c0 c1 c2 nx ih0 ih1 ih2 ihn
    case AST_ARGUMENT => exact labelSpec_AST_ARGUMENT vt vk iv sv nf c0 c1 c2 nx ih0 ih1 ih2 ihn
    case AST_ASSIGNMENT =>
      exact labelSpec_AST_ASSIGNMENT vt vk iv sv nf c0 c1 c2 nx ih0 ih1 ih2 ihn
    case AST_WHILE => exact labelSpec_AST_WHILE vt vk iv sv nf c0 c1 c2 nx ih0 ih1 ih2 ihn
    case AST_IFTHEN => exact labelSpec_AST_IFTHEN vt vk iv sv nf c0 c1 c2 nx ih0 ih1 ih2 ihn
    case AST_IFTHENELSE =>
      exact labelSpec_AST_IFTHENELSE vt vk iv sv nf c0 c1 c2 nx ih0 ih1 ih2 ihn
    case AST_EXPRESSION =>
      exact labelSpec_AST_EXPRESSION vt vk iv sv nf c0 c1 c2 nx ih0 ih1 ih2 ihn
    case AST_RELEXPR => exact labelSpec_AST_RELEXPR vt vk iv sv nf c0 c1 c2 nx ih0 ih1 ih2 ihn
    case AST_VARREF => exact labelSpec_AST_VARREF vt vk iv sv nf c0 c1 c2 nx ih0 ih1 ih2 ihn
    case AST_CONSTANT => exact labelSpec_AST_CONSTANT vt vk iv sv nf c0 c1 c2 nx ih0 ih1 ih2 ihn
    case AST_UNKNOWN code =>
      exact labelSpec_AST_UNKNOWN code vt vk iv sv nf c0 c1 c2 nx ih0 ih1 ih2 ihn

/-- The number of label definitions written is twice the number of While and IfThen nodes
generated. -/
theorem gen_labelDefs_length (t : ASTNode) : ∀ (hval : Int) (s : GenState),
    (labelDefs (genCodeFromASTree t hval s).2).length = 2 * countLabelNodes t := by
  induction t with
  | null => intro hval s; rfl
  | node d c0 c1 c2 nx ih0 ih1 ih2 ihn =>
    intro hval s
    rcases d with ⟨ty, vt, vk, iv, sv, nf⟩
    rw [genCodeFromASTree]
    cases ty
    case AST_ASSIGNMENT =>
      by_cases hk : vk = VarKind.V_GLARRAY
      · subst hk
        simp only [countLabelNodes, if_true, reduceCtorEq, if_false, or_self, labelDefs_append,
          labelDefs_cons, labelDefs_nil, List.length_append, List.length_cons, List.length_nil,
          List.nil_append, List.append_nil, labelDefs_pushT0, ih0, ih1, ihn]
        omega
      · simp only [countLabelNodes, hk, if_false]
        split_ifs <;>
          simp only [labelDefs_append, labelDefs_cons, labelDefs_nil, List.length_append,
            List.length_cons, List.length_nil, List.nil_append, List.append_nil, ih0, ihn] <;>
          omega
    case AST_VARREF =>
      by_cases hk : vk = VarKind.V_GLARRAY
      · subst hk
        simp only [countLabelNodes, if_true, reduceCtorEq, if_false, or_self, labelDefs_append,
          labelDefs_cons, labelDefs_nil, List.length_append, List.length_cons, List.length_nil,
          List.nil_append, List.append_nil, ih0, ihn]
        omega
      · simp only [countLabelNodes, hk, if_false]
        split_ifs <;>
          simp only [labelDefs_append, labelDefs_cons, labelDefs_nil, List.length_append,
            List.length_cons, List.length_nil, List.nil_append, List.append_nil, ihn] <;>
          omega
    all_goals
      simp only [countLabelNodes, getUniqueLabelID]
      (try split_ifs) <;>
      simp only [labelDefs_append, labelDefs_cons, labelDefs_nil, List.length_append,
        List.length_cons, List.length_nil, List.nil_append, List.append_nil,
        labelDefs_programHeader, labelDefs_globalsHeader, labelDefs_textHeader,
        labelDefs_exitSequence, labelDefs_libraryFunctions, labelDefs_prologue,
        labelDefs_epilogue, labelDefs_pushT0, (grabStrings_frame _ _).2.2, ih0, ih1, ih2, ihn] <;>
      omega

/-- C6 (counterexample): started with `lid = 2147483647`, one While node defines the labels
2147483647 and -2147483648 and leaves `lid = -2147483647`, not the starting value plus 2. -/
theorem C6_counterexample :
    (genCodeFromASTree (whileLt10 .null) 0 { initState with lid := 2147483647 }).1.lid
      = -2147483647
    ∧ labelDefs (genCodeFromASTree (whileLt10 .null) 0 { initState with lid := 2147483647 }).2
      = [2147483647, -2147483648]
    ∧ (2147483647 : Int) + 2 * (countLabelNodes (whileLt10 .null) : Int) = 2147483649 := by
  decide

/-- C6 (amended): for every tree and every starting value `lid` of the branch-label counter
that is a 32-bit `int` with `lid + 2 * k ≤ 2147483647`, `k` being the number of While and
IfThen nodes generated, the `2 * k` label definitions `.LL<n>:` written in the run carry
pairwise distinct numbers, all in `[lid, lid + 2 * k)`, and the counter ends at
`lid + 2 * k`. -/
theorem C6_labels_distinct_counter_advances (t : ASTNode) (hval : Int) (s : GenState)
    (hs : isInt32 s.lid) (hb : s.lid + 2 * (countLabelNodes t : Int) ≤ 2147483647) :
    (labelDefs (genCodeFromASTree t hval s).2).Nodup
    ∧ (labelDefs (genCodeFromASTree t hval s).2).length = 2 * countLabelNodes t
    ∧ (∀ n ∈ labelDefs (genCodeFromASTree t hval s).2,
        s.lid ≤ n ∧ n < s.lid + 2 * (countLabelNodes t : Int))
    ∧ (genCodeFromASTree t hval s).1.lid = s.lid + 2 * (countLabelNodes t : Int) := by
  obtain ⟨hlid, hin⟩ := gen_labels t hval s hs.1 hb
  refine ⟨?_, gen_labelDefs_length t hval s, ?_, hlid⟩
  · exact List.nodup_iff_count_le_one.mpr fun x => (hin x).1
  · intro n hn
    have hpos : 0 < (labelDefs (genCodeFromASTree t hval s).2).count n :=
      List.count_pos_iff.mpr hn
    obtain ⟨_, hlo, hhi⟩ := hin n
    constructor
    · by_contra hc
      have := hlo (by omega)
      omega
    · by_contra hc
      have := hhi (by omega)
      omega

theorem C6_labels_distinct_counter_advances_witness :
    isInt32 initState.lid
    ∧ (labelDefs (genCodeFromASTree ifWithLoop 0 initState).2).Nodup
    ∧ (genCodeFromASTree ifWithLoop 0 initState).1.lid = 104 :=
  ⟨by decide,
   (C6_labels_distinct_counter_advances ifWithLoop 0 initState (by decide) (by decide)).1,
   (C6_labels_distinct_counter_advances ifWithLoop 0 initState (by decide) (by decide)).2.2.2⟩

theorem run_append (a b : List Asm) : ∀ m : Machine,
    m.run (a ++ b) = (m.run a).bind fun m1 => m1.run b := by
  induction a with
  | nil => intro m; rfl
  | cons x xs ih =>
    intro m
    rw [List.cons_append, Machine.run, Machine.run]
    cases m.step x with
    | none => rfl
    | some m1 => exact ih m1

theorem run_nil (m : Machine) : m.run [] = some m := rfl

theorem run_cons (m : Machine) (a : Asm) (l : List Asm) :
    m.run (a :: l) = (m.step a).bind fun m1 => m1.run l := by
  rw [Machine.run]
  cases m.step a <;> rfl

theorem word_add (a b : Int) : word (word a + word b) = word (a + b) := by
  unfold word; omega

theorem word_sub (a b : Int) : word (word a - word b) = word (a - b) := by
  unfold word; omega

theorem word_push_pop (sp : Int) (h : 0 ≤ sp ∧ sp < 4294967296) : word (word (sp - 4) + 4) = sp := by
  unfold word; omega

theorem word_range (x : Int) : 0 ≤ word x ∧ word x < 4294967296 := by
  unfold word; omega

/-- Running the code of an arithmetic tree: `t0` receives the value, `sp` and the stack are
restored. -/
theorem arith_run (t : ASTNode) : ∀ (hval : Int) (s : GenState) (m : Machine),
    isArith t = true → (0 ≤ m.sp ∧ m.sp < 4294967296) →
    ∃ r1, m.run (genCodeFromASTree t hval s).2
      = some { t0 := word (evalArith t), t1 := r1, sp := m.sp, stack := m.stack } := by
  induction t with
  | null => intro _ _ _ h; simp [isArith] at h
  | node d c0 c1 c2 nx ih0 ih1 _ _ =>
    intro hval s m h hsp
    rcases d with ⟨ty, vt, vk, iv, sv, nf⟩
    cases nx with
    | node _ _ _ _ _ => simp [isArith] at h
    | null =>
      cases ty <;> simp only [isArith, Bool.false_eq_true] at h
      case AST_CONSTANT =>
        simp only [decide_eq_true_eq] at h
        subst h
        refine ⟨m.t1, ?_⟩
        simp [genCodeFromASTree, Machine.run, Machine.step, evalArith]
      case AST_EXPRESSION =>
        simp only [Bool.and_eq_true, Bool.or_eq_true, decide_eq_true_eq] at h
        obtain ⟨⟨hop, h0⟩, h1⟩ := h
        obtain ⟨r0, e0⟩ := ih0 1 s m h0 hsp
        obtain ⟨r1, e1⟩ := ih1 1 (genCodeFromASTree c0 1 s).1
          { t0 := word (evalArith c0), t1 := r0, sp := word (m.sp - 4),
            stack := some (word (evalArith c0)) :: m.stack } h1 (word_range _)
        refine ⟨word (evalArith c0), ?_⟩
        have hc : isCommentLine "\t#--binary-op-expression--\n" = true := by decide
        rw [genCodeFromASTree]
        simp only [genCodeFromASTree, List.append_nil, List.singleton_append, List.cons_append,
          List.append_assoc, List.nil_append, pushT0]
        have h4 : ¬ ((4 : Int) = -4) := by decide
        rcases hop with hop | hop
        · subst hop
          simp only [run_cons, run_append, run_nil, Machine.step, hc, if_true, e0,
            Option.some_bind, and_self, evalArith, addopInstr]
          simp only [e1, Option.some_bind, h4, and_false, if_false,
            word_push_pop m.sp hsp, word_add]
        · subst hop
          simp only [run_cons, run_append, run_nil, Machine.step, hc, if_true, e0,
            Option.some_bind, and_self, evalArith, addopInstr]
          simp only [e1, Option.some_bind, h4, and_false, if_false,
            word_push_pop m.sp hsp, word_sub]
          simp


/-- C7: for every Expression tree whose leaves are integer Constants and whose operator codes
are all `+` or `-`, running the emitted items on the machine (32-bit registers `t0`, `t1`,
`sp` and a stack memory; indentation and comment lines ignored) from any state succeeds and
leaves `t0` equal to the value of the expression modulo `2^32`, `-` being left operand minus
right operand, and `sp` and the stack as they were. -/
theorem C7_arith_code_computes_value (t : ASTNode) (hval : Int) (s : GenState) (m : Machine)
    (ht : isArith t = true) (hsp : 0 ≤ m.sp ∧ m.sp < 4294967296) :
    ∃ m1, m.run (genCodeFromASTree t hval s).2 = some m1
      ∧ m1.t0 = evalArith t % 4294967296 ∧ m1.sp = m.sp ∧ m1.stack = m.stack := by
  obtain ⟨r1, h⟩ := arith_run t hval s m ht hsp
  exact ⟨_, h, rfl, rfl, rfl⟩

theorem C7_arith_code_computes_value_witness :
    isArith twoPlusThree = true
    ∧ ∃ m1, machine0.run (genCodeFromASTree twoPlusThree 0 initState).2 = some m1
        ∧ m1.t0 = 5 ∧ m1.sp = 4096 ∧ m1.stack = [] :=
  ⟨by decide, C7_arith_code_computes_value twoPlusThree 0 initState machine0 (by decide)
    (by decide)⟩

/-- C8: for every Program node the output is, in this order: the indentation of the node; the
file header and data-section header; the declaration lines written by the collector (run
with `lastStringIndex` reset to 0); the code of slot 0; the text-section header with the
`program:` label; the code of slot 2; the process-exit sequence; the code of slot 1; the
library functions `printStr`, `printInt`, `readInt`, a constant text; and then the output
for the node's `next` chain (nothing when `next` is absent). -/
theorem C8_program_layout (d : NodeData) (c0 c1 c2 nx : ASTNode) (hval : Int) (s : GenState)
    (hd : d.type = .AST_PROGRAM) :
    (let col := grabStrings (.node d c0 c1 c2 nx) { s with lastStringIndex := 0 }
     let g0 := genCodeFromASTree c0 0 col.1
     let g2 := genCodeFromASTree c2 0 g0.1
     let g1 := genCodeFromASTree c1 0 g2.1
     (genCodeFromASTree (.node d c0 c1 c2 nx) hval s).2
       = [Asm.indent (levelPrefix hval)] ++ programHeader ++ col.2 ++ globalsHeader ++ g0.2
           ++ textHeader ++ g2.2 ++ exitSequence ++ g1.2 ++ libraryFunctions
           ++ (genCodeFromASTree nx 0 g1.1).2)
    ∧ renderAll libraryFunctions
        = "#\n# Library functions\n#\n\n# Print a null-terminated string: arg: a0 == string address\nprintStr:\n\tli\t\ta7, 4\n\tecall\n\tret\n\n# Print a decimal integer: arg: a0 == value\nprintInt:\n\tli\t\ta7, 1\n\tecall\n\tret\n\n# Read in a decimal integer: return: a0 == value\nreadInt:\n\tli\t\ta7, 1\n\tecall\n\tret\n\n" := by
  refine ⟨?_, rfl⟩
  rw [gen_program d c0 c1 c2 nx hval s hd]
  simp only [List.append_assoc]

set_option maxRecDepth 100000 in
theorem C8_program_layout_witness :
    (genCodeFromASTree scenario1 0 initState).2
      = [Asm.indent ""] ++ programHeader ++ [] ++ globalsHeader
          ++ [Asm.indent "", Asm.word0 (some "x")]
          ++ textHeader ++ [] ++ exitSequence
          ++ ([Asm.indent "", Asm.funComment (some "main"), Asm.symLabel (some "main")]
                ++ prologue
                ++ [Asm.indent "", Asm.txt "\t#--assignment--\n",
                    Asm.indent "   ", Asm.li .t0 5,
                    Asm.swSym .t0 (some "x") .t1,
                    Asm.indent "", Asm.callComment (some "printInt"),
                    Asm.indent "", Asm.indent "", Asm.lwSym .t0 (some "x"),
                    Asm.mv (.a 0) .t0,
                    Asm.jal (some "printInt")]
                ++ epilogue)
          ++ libraryFunctions
    ∧ renderAll (genCodeFromASTree scenario1 0 initState).2
      = "#\n# RISC-V assembly output\n#\n\n#\n# Data section\n#\n\t.data\n\n# string constants\n\n# global symbols (variables)\nx: .word 0\n\n#\n# Program instructions\n#\n\t.text\nprogram:\n\tli\t\ta0, 0\n\tli\t\ta7, 93\n\tecall\n\n#\n# Declared Functions\n#\n\n#\n# Function def for main\n#\nmain:\n\taddi\tsp, sp, -128\n\tsw\t\tfp, 4(sp)\n\tsw\t\tra, 0(sp)\n\tmv\t\tfp, sp\n\tsw\t\ta0, 8(sp)\n\tsw\t\ta1, 12(sp)\n\tsw\t\ta2, 16(sp)\n\tsw\t\ta3, 20(sp)\n\tsw\t\ta4, 24(sp)\n\tsw\t\ta5, 28(sp)\n\t#--assignment--\n   \tli\t\tt0, 5\n\tsw\t\tt0, x, t1\n\t#--function call to printInt--\n\tlw\t\tt0, x\n\tmv\t\ta0, t0\n\tjal\t\tprintInt\n\tmv\t\tsp, fp\n\tlw\t\tfp, 4(sp)\n\tlw\t\tra, 0(sp)\n\taddi\tsp, sp, 128\n\tret\n\n#\n# Library functions\n#\n\n# Print a null-terminated string: arg: a0 == string address\nprintStr:\n\tli\t\ta7, 4\n\tecall\n\tret\n\n# Print a decimal integer: arg: a0 == value\nprintInt:\n\tli\t\ta7, 1\n\tecall\n\tret\n\n# Read in a decimal integer: return: a0 == value\nreadInt:\n\tli\t\ta7, 1\n\tecall\n\tret\n\n" := by
  have h := (C8_program_layout programData declX mainFunction .null .null 0 initState rfl).1
  rw [scenario1, h]
  exact ⟨rfl, rfl⟩

/-- C9 (counterexample): for an integer VarDecl `a` with `ival = 536870912` the line written
is `a: .space -2147483648`, while `4 * 536870912 = 2147483648`. -/
theorem C9_counterexample :
    (genCodeFromASTree
        (leaf ⟨.AST_VARDECL, .T_INT, .V_GLARRAY, 536870912, some "a", false⟩) 0 initState).2
      = [Asm.indent "", Asm.space (some "a") (-2147483648)]
    ∧ isInt32 536870912
    ∧ (4 : Int) * 536870912 = 2147483648 := by
  decide

/-- C9 (amended): for every VarDecl node of value type Int with name `s` and 32-bit `ival = n`:
if `0 < n ≤ 536870911` the line written is `s: .space B` with `B = 4 * n`; if `n ≤ 0` it is
`s: .word 0`; for every `n > 0` the number printed is the `int` product `n * 4`, that is
`4 * n` wrapped to 32 bits. Generation then continues with `next`. -/
theorem C9_vardecl_int_reservation (d : NodeData) (c0 c1 c2 nx : ASTNode) (hval : Int)
    (s : GenState) (hd : d.type = .AST_VARDECL) (hv : d.valType = .T_INT)
    (hi : isInt32 d.ival) :
    (0 < d.ival → d.ival ≤ 536870911 →
      (genCodeFromASTree (.node d c0 c1 c2 nx) hval s).2
        = Asm.indent (levelPrefix hval) :: Asm.space d.strval (4 * d.ival)
            :: (genCodeFromASTree nx 0 s).2)
    ∧ (d.ival ≤ 0 →
      (genCodeFromASTree (.node d c0 c1 c2 nx) hval s).2
        = Asm.indent (levelPrefix hval) :: Asm.word0 d.strval :: (genCodeFromASTree nx 0 s).2)
    ∧ (0 < d.ival →
      (genCodeFromASTree (.node d c0 c1 c2 nx) hval s).2
        = Asm.indent (levelPrefix hval) :: Asm.space d.strval (wrap32 (d.ival * 4))
            :: (genCodeFromASTree nx 0 s).2) := by
  unfold isInt32 at hi
  refine ⟨fun h1 h2 => ?_, fun h1 => ?_, fun h1 => ?_⟩
  · have e : wrap32 (d.ival * 4) = 4 * d.ival := by unfold wrap32; omega
    rw [genCodeFromASTree]
    simp [hd, hv, h1, e]
  · have h2 : ¬ d.ival > 0 := by omega
    rw [genCodeFromASTree]
    simp [hd, hv, h2]
  · rw [genCodeFromASTree]
    simp [hd, hv, h1]

theorem C9_vardecl_int_reservation_witness :
    renderAll (genCodeFromASTree (declArr 3) 0 initState).2 = "arr: .space 12\n"
    ∧ renderAll (genCodeFromASTree declX 0 initState).2 = "x: .word 0\n" := by
  have h := C9_vardecl_int_reservation ⟨.AST_VARDECL, .T_INT, .V_GLARRAY, 3, some "arr", false⟩
    .null .null .null .null 0 initState rfl rfl (by decide)
  have h0 := C9_vardecl_int_reservation ⟨.AST_VARDECL, .T_INT, .V_GLOBAL, 0, some "x", false⟩
    .null .null .null .null 0 initState rfl rfl (by decide)
  constructor
  · rw [declArr, leaf, h.1 (by decide) (by decide)]
    decide
  · rw [declX, leaf, h0.2.1 (by decide)]
    decide

/-- Every `free` made while destroying the tree at `here` is about a path below `here`. -/
theorem freeASTree_path_prefix (t : ASTNode) : ∀ (here : Path) (e : FreeEvent),
    e ∈ freeASTree t here → here <+: e.path := by
  induction t with
  | null => intro here e h; simp [freeASTree] at h
  | node d c0 c1 c2 nx ih0 ih1 ih2 ihn =>
    intro here e h
    simp only [freeASTree, List.mem_append, List.mem_singleton] at h
    rcases h with ((((h | h) | h) | h) | h) | h
    · exact (List.prefix_append here [Dir.c0]).trans (ih0 _ e h)
    · exact (List.prefix_append here [Dir.c1]).trans (ih1 _ e h)
    · exact (List.prefix_append here [Dir.c2]).trans (ih2 _ e h)
    · exact (List.prefix_append here [Dir.nx]).trans (ihn _ e h)
    · split_ifs at h
      · simp only [List.mem_singleton] at h
        subst h
        exact List.prefix_refl _
      · simp at h
    · subst h
      exact List.prefix_refl _

/-- A subtree hanging at direction `dir` never frees an event whose path does not continue
with `dir`. -/
theorem freeASTree_count_other (t : ASTNode) (here p : Path) (dir : Dir) (e : FreeEvent)
    (he : e.path = here ++ p) (hp : ∀ q, p ≠ dir :: q) :
    (freeASTree t (here ++ [dir])).count e = 0 := by
  apply List.count_eq_zero_of_not_mem
  intro hmem
  have hpre := freeASTree_path_prefix t (here ++ [dir]) e hmem
  rw [he] at hpre
  obtain ⟨r, hr⟩ := hpre
  rw [List.append_assoc] at hr
  have := List.append_cancel_left hr
  exact hp r (by simpa using this.symm)


theorem freeASTree_count_node (t : ASTNode) : ∀ (here p : Path),
    (freeASTree t here).count (FreeEvent.node (here ++ p)) = expectedNodeFrees t p := by
  induction t with
  | null => intro here p; simp [freeASTree, expectedNodeFrees, nodeAt]
  | node d c0 c1 c2 nx ih0 ih1 ih2 ihn =>
    intro here p
    cases p with
    | nil =>
      have z0 := freeASTree_count_other c0 here [] Dir.c0 (.node (here ++ [])) rfl (by simp)
      have z1 := freeASTree_count_other c1 here [] Dir.c1 (.node (here ++ [])) rfl (by simp)
      have z2 := freeASTree_count_other c2 here [] Dir.c2 (.node (here ++ [])) rfl (by simp)
      have zn := freeASTree_count_other nx here [] Dir.nx (.node (here ++ [])) rfl (by simp)
      simp only [freeASTree, List.count_append, z0, z1, z2, zn, expectedNodeFrees, nodeAt]
      split_ifs <;> simp
    | cons dir q =>
      have e : here ++ dir :: q = (here ++ [dir]) ++ q := by simp
      have i0 := ih0 (here ++ [Dir.c0]) q
      have i1 := ih1 (here ++ [Dir.c1]) q
      have i2 := ih2 (here ++ [Dir.c2]) q
      have i3 := ihn (here ++ [Dir.nx]) q
      have z0 := freeASTree_count_other c0 here (dir :: q) Dir.c0 (.node (here ++ dir :: q)) rfl
      have z1 := freeASTree_count_other c1 here (dir :: q) Dir.c1 (.node (here ++ dir :: q)) rfl
      have z2 := freeASTree_count_other c2 here (dir :: q) Dir.c2 (.node (here ++ dir :: q)) rfl
      have zn := freeASTree_count_other nx here (dir :: q) Dir.nx (.node (here ++ dir :: q)) rfl
      cases dir
      · simp only [freeASTree, List.count_append, expectedNodeFrees, nodeAt]
        rw [z1 (by simp), z2 (by simp), zn (by simp), e, i0]
        split_ifs <;> simp [expectedNodeFrees]
      · simp only [freeASTree, List.count_append, expectedNodeFrees, nodeAt]
        rw [z0 (by simp), z2 (by simp), zn (by simp), e, i1]
        split_ifs <;> simp [expectedNodeFrees]
      · simp only [freeASTree, List.count_append, expectedNodeFrees, nodeAt]
        rw [z0 (by simp), z1 (by simp), zn (by simp), e, i2]
        split_ifs <;> simp [expectedNodeFrees]
      · simp only [freeASTree, List.count_append, expectedNodeFrees, nodeAt]
        rw [z0 (by simp), z1 (by simp), z2 (by simp), e, i3]
        split_ifs <;> simp [expectedNodeFrees]

theorem freeASTree_count_str (t : ASTNode) : ∀ (here p : Path),
    (freeASTree t here).count (FreeEvent.str (here ++ p)) = expectedStrFrees t p := by
  induction t with
  | null => intro here p; simp [freeASTree, expectedStrFrees, nodeAt]
  | node d c0 c1 c2 nx ih0 ih1 ih2 ihn =>
    intro here p
    cases p with
    | nil =>
      have z0 := freeASTree_count_other c0 here [] Dir.c0 (.str (here ++ [])) rfl (by simp)
      have z1 := freeASTree_count_other c1 here [] Dir.c1 (.str (here ++ [])) rfl (by simp)
      have z2 := freeASTree_count_other c2 here [] Dir.c2 (.str (here ++ [])) rfl (by simp)
      have zn := freeASTree_count_other nx here [] Dir.nx (.str (here ++ [])) rfl (by simp)
      simp only [freeASTree, List.count_append, z0, z1, z2, zn, expectedStrFrees, nodeAt]
      split_ifs <;> simp
    | cons dir q =>
      have e : here ++ dir :: q = (here ++ [dir]) ++ q := by simp
      have i0 := ih0 (here ++ [Dir.c0]) q
      have i1 := ih1 (here ++ [Dir.c1]) q
      have i2 := ih2 (here ++ [Dir.c2]) q
      have i3 := ihn (here ++ [Dir.nx]) q
      have z0 := freeASTree_count_other c0 here (dir :: q) Dir.c0 (.str (here ++ dir :: q)) rfl
      have z1 := freeASTree_count_other c1 here (dir :: q) Dir.c1 (.str (here ++ dir :: q)) rfl
      have z2 := freeASTree_count_other c2 here (dir :: q) Dir.c2 (.str (here ++ dir :: q)) rfl
      have zn := freeASTree_count_other nx here (dir :: q) Dir.nx (.str (here ++ dir :: q)) rfl
      cases dir
      · simp only [freeASTree, List.count_append, expectedStrFrees, nodeAt]
        rw [z1 (by simp), z2 (by simp), zn (by simp), e, i0]
        split_ifs <;> simp [expectedStrFrees]
      · simp only [freeASTree, List.count_append, expectedStrFrees, nodeAt]
        rw [z0 (by simp), z2 (by simp), zn (by simp), e, i1]
        split_ifs <;> simp [expectedStrFrees]
      · simp only [freeASTree, List.count_append, expectedStrFrees, nodeAt]
        rw [z0 (by simp), z1 (by simp), zn (by simp), e, i2]
        split_ifs <;> simp [expectedStrFrees]
      · simp only [freeASTree, List.count_append, expectedStrFrees, nodeAt]
        rw [z0 (by simp), z1 (by simp), z2 (by simp), e, i3]
        split_ifs <;> simp [expectedStrFrees]


/-- C10: `freeASTree` applied to a tree releases every node of the tree (reached through
child slots and `next` links) exactly once, releases the string of a node exactly once if
the node has `strNeedsFreed` set and a string present and never otherwise, releases nothing
that is not in the tree, and does nothing on an absent node. -/
theorem C10_destroy_frees_each_once (t : ASTNode) :
    (∀ (p : Path) (d : NodeData), nodeAt t p = some d →
        (freeASTree t []).count (FreeEvent.node p) = 1
        ∧ (freeASTree t []).count (FreeEvent.str p)
            = if d.strNeedsFreed = true ∧ d.strval.isSome = true then 1 else 0)
    ∧ (∀ p : Path, nodeAt t p = none →
        (freeASTree t []).count (FreeEvent.node p) = 0
        ∧ (freeASTree t []).count (FreeEvent.str p) = 0)
    ∧ freeASTree .null [] = [] := by
  refine ⟨fun p d h => ?_, fun p h => ?_, rfl⟩
  · have hn := freeASTree_count_node t [] p
    have hs := freeASTree_count_str t [] p
    simp only [List.nil_append, expectedNodeFrees, expectedStrFrees, h] at hn hs
    exact ⟨hn, hs⟩
  · have hn := freeASTree_count_node t [] p
    have hs := freeASTree_count_str t [] p
    simp only [List.nil_append, expectedNodeFrees, expectedStrFrees, h] at hn hs
    exact ⟨hn, hs⟩

/-- The `free` calls made for the sample tree: the borrowed string of the first child and
the absent string of the second are not released. -/
theorem freeASTree_ownershipSample :
    freeASTree ownershipSample []
      = [FreeEvent.node [Dir.c0], FreeEvent.node [Dir.c1], FreeEvent.str [Dir.nx],
         FreeEvent.node [Dir.nx], FreeEvent.str [], FreeEvent.node []] := by
  decide

/-! ## Node construction and indentation -/

/-- C11: for every node kind `k`, when the allocation succeeds `newASTNode k` returns a node
with `type = k`, `ival = 0`, `varKind = V_GLOBAL`, `valType = T_RETURNVAL`, `strval` absent,
`strNeedsFreed` false, the three child slots and `next` absent, whatever the block held
before; when the allocation fails it returns `NULL`. -/
theorem C11_newASTNode_initialises_every_field (k : ASTNodeType) :
    (∀ b : Block, newASTNode k (some b)
        = .node { type := k, valType := .T_RETURNVAL, varKind := .V_GLOBAL, ival := 0,
                  strval := none, strNeedsFreed := false } .null .null .null .null)
    ∧ newASTNode k none = .null :=
  ⟨fun _ => rfl, rfl⟩

/-- The closed form of the loop of `levelPrefix`: started at `i` with `fuel` iterations left,
it stops at the limit `min (level*INDENTAMT) 126` or when the fuel is used up. -/
theorem levelPrefixLoop_eq (level : Int) (fuel i : Nat) :
    levelPrefixLoop level fuel i
      = if (i : Int) < wrap32 (level * INDENTAMT) ∧ i < 126 then
          min (i + fuel) (min (wrap32 (level * INDENTAMT)).toNat 126)
        else i := by
  induction fuel generalizing i with
  | zero =>
    simp only [levelPrefixLoop]
    split_ifs with h
    · omega
    · rfl
  | succ n ih =>
    rw [levelPrefixLoop]
    split_ifs with h
    · rw [ih]
      split_ifs with h2
      · omega
      · omega
    · rfl

/-- The number of blanks of `levelPrefix level`. -/
theorem levelPrefix_data (level : Int) :
    (levelPrefix level).data
      = List.replicate (if 0 < wrap32 (level * INDENTAMT)
          then min (wrap32 (level * INDENTAMT)).toNat 126 else 0) (Char.ofNat 32) := by
  unfold levelPrefix
  rw [levelPrefixLoop_eq]
  congr 1
  by_cases h : 0 < wrap32 (level * INDENTAMT)
  · simp only [Nat.cast_zero, h, Nat.zero_add, if_true, true_and, Nat.ofNat_pos]
    have e : min 126 (min (wrap32 (level * INDENTAMT)).toNat 126)
        = min (wrap32 (level * INDENTAMT)).toNat 126 := by omega
    rw [e]
  · simp only [Nat.cast_zero, h, if_false, false_and]

/-- C12 (counterexample): at depth 43 the indentation written before a node's line has 126
blanks, not `3 * 43 = 129`. -/
theorem C12_counterexample :
    (printASTree (intConst 7) 43).head? = some (Sink.out, levelPrefix 43)
    ∧ (levelPrefix 43).length = 126
    ∧ 3 * 43 = 129 :=
  ⟨rfl, rfl, rfl⟩

/-- C12 (amended): for every node and every depth `d`, the first write of `printASTree` is
the indentation `levelPrefix d` on `out`; it consists of exactly `3 * d` blanks when
`0 ≤ d ≤ 42` and of exactly 126 blanks when `43 ≤ d ≤ 715827882`; and the `next` chain of
the node is printed at the same depth `d`. -/
theorem C12_indentation_width (d : NodeData) (c0 c1 c2 nx : ASTNode) (depth : Int) :
    (∃ own, printASTree (.node d c0 c1 c2 nx) depth
        = (Sink.out, levelPrefix depth) :: (own ++ printASTree nx depth))
    ∧ (0 ≤ depth → depth ≤ 42 →
        (levelPrefix depth).data = List.replicate (3 * depth).toNat (Char.ofNat 32))
    ∧ (43 ≤ depth → depth ≤ 715827882 →
        (levelPrefix depth).data = List.replicate 126 (Char.ofNat 32)) := by
  refine ⟨?_, fun h0 h1 => ?_, fun h0 h1 => ?_⟩
  · rw [printASTree]
    exact ⟨_, rfl⟩
  · rw [levelPrefix_data]
    have e : wrap32 (depth * INDENTAMT) = 3 * depth := by unfold wrap32 INDENTAMT; omega
    rw [e]
    congr 1
    split_ifs <;> omega
  · rw [levelPrefix_data]
    have e : wrap32 (depth * INDENTAMT) = 3 * depth := by unfold wrap32 INDENTAMT; omega
    rw [e]
    congr 1
    split_ifs <;> omega

theorem C12_indentation_width_witness :
    (levelPrefix 2).data = List.replicate 6 (Char.ofNat 32)
    ∧ (levelPrefix 50).data = List.replicate 126 (Char.ofNat 32) :=
  ⟨(C12_indentation_width programData .null .null .null .null 2).2.1 (by decide) (by decide),
   (C12_indentation_width programData .null .null .null .null 50).2.2 (by decide) (by decide)⟩

/-! ## The sentinel line of the printer -/

theorem sentinelWrites_nil : sentinelWrites [] = 0 := rfl

theorem sentinelWrites_append (a b : List (Sink × String)) :
    sentinelWrites (a ++ b) = sentinelWrites a + sentinelWrites b := by
  simp [sentinelWrites, List.count_append]

theorem sentinelWrites_cons_ne (k : Sink) (x : String) (l : List (Sink × String))
    (h : x ≠ unknownNodeLine) : sentinelWrites ((k, x) :: l) = sentinelWrites l := by
  unfold sentinelWrites
  rw [List.count_cons]
  simp [h]

theorem sentinelWrites_cons_stdout (x : String) (l : List (Sink × String)) :
    sentinelWrites ((Sink.stdout, x) :: l) = sentinelWrites l := by
  unfold sentinelWrites
  rw [List.count_cons]
  simp

theorem sentinelWrites_cons_self (l : List (Sink × String)) :
    sentinelWrites ((Sink.out, unknownNodeLine) :: l) = sentinelWrites l + 1 := by
  unfold sentinelWrites
  rw [List.count_cons]
  simp

/-- A text whose first character differs from the first character of the placeholder line
is not the placeholder line. -/
theorem ne_unknownNodeLine_of_head (s : String)
    (h : s.data.head? ≠ unknownNodeLine.data.head?) : s ≠ unknownNodeLine :=
  fun e => h (by rw [e])

theorem head_append_left (a b : String) (h : a.data ≠ []) :
    (a ++ b).data.head? = a.data.head? := by
  rw [String.data_append]
  cases hd : a.data with
  | nil => exact absurd hd h
  | cons x xs => rfl

/-- A text that begins with a fixed non-empty text whose first character is not that of the
placeholder line is not the placeholder line. -/
theorem lit_append_ne (a b : String) (h : a.data ≠ [])
    (h2 : a.data.head? ≠ unknownNodeLine.data.head?) : a ++ b ≠ unknownNodeLine :=
  ne_unknownNodeLine_of_head _ (by rw [head_append_left a b h]; exact h2)

theorem levelPrefix_ne (level : Int) : levelPrefix level ≠ unknownNodeLine := by
  apply ne_unknownNodeLine_of_head
  rw [levelPrefix_data]
  generalize (if 0 < wrap32 (level * INDENTAMT) then
    min (wrap32 (level * INDENTAMT)).toNat 126 else 0) = n
  cases n with
  | zero => decide
  | succ k =>
    rw [List.replicate_succ, List.head?_cons]
    decide

theorem levelPrefix_append_ne (level : Int) (s : String)
    (h : s.data.head? ≠ unknownNodeLine.data.head?) :
    levelPrefix level ++ s ≠ unknownNodeLine := by
  apply ne_unknownNodeLine_of_head
  rw [String.data_append, levelPrefix_data]
  generalize (if 0 < wrap32 (level * INDENTAMT) then
    min (wrap32 (level * INDENTAMT)).toNat 126 else 0) = n
  cases n with
  | zero => simpa using h
  | succ k =>
    rw [List.replicate_succ, List.cons_append, List.head?_cons]
    decide

theorem sentinelWrites_cons_out (x : String) (l : List (Sink × String)) :
    sentinelWrites ((Sink.out, x) :: l)
      = sentinelWrites l + if x = unknownNodeLine then 1 else 0 := by
  unfold sentinelWrites
  rw [List.count_cons]
  simp

/-- None of the label texts of the 14 defined kinds is the placeholder line. -/
theorem label_texts_ne :
    (∀ b : String, "Variable declaration (" ++ b ≠ unknownNodeLine)
    ∧ (∀ b : String, " type int array size " ++ b ≠ unknownNodeLine)
    ∧ (∀ b : String, " type unknown (" ++ b ≠ unknownNodeLine)
    ∧ (∀ b : String, "Function def (" ++ b ≠ unknownNodeLine)
    ∧ (∀ b : String, "Function call (" ++ b ≠ unknownNodeLine)
    ∧ (∀ b : String, "Assignment to (" ++ b ≠ unknownNodeLine)
    ∧ (∀ b : String, "Expression (op " ++ b ≠ unknownNodeLine)
    ∧ (∀ b : String, "Relational Expression (op " ++ b ≠ unknownNodeLine)
    ∧ (∀ b : String, "Variable ref (" ++ b ≠ unknownNodeLine)
    ∧ (∀ b : String, "Int Constant = " ++ b ≠ unknownNodeLine)
    ∧ (∀ b : String, "String Constant = (" ++ b ≠ unknownNodeLine)
    ∧ "Whole Program AST:\n" ≠ unknownNodeLine
    ∧ " type int\n" ≠ unknownNodeLine
    ∧ " type long\n" ≠ unknownNodeLine
    ∧ " type string\n" ≠ unknownNodeLine
    ∧ "Statement block\n" ≠ unknownNodeLine
    ∧ "Funcall argument\n" ≠ unknownNodeLine
    ∧ "array var\n" ≠ unknownNodeLine
    ∧ "simple var\n" ≠ unknownNodeLine
    ∧ "While loop\n" ≠ unknownNodeLine
    ∧ "If then\n" ≠ unknownNodeLine
    ∧ " array ref\n" ≠ unknownNodeLine
    ∧ "\n" ≠ unknownNodeLine
    ∧ "Unknown Constant\n" ≠ unknownNodeLine
    ∧ (∀ level : Int, levelPrefix level ++ "--globalvars--\n" ≠ unknownNodeLine)
    ∧ (∀ level : Int, levelPrefix level ++ "--functions--\n" ≠ unknownNodeLine)
    ∧ (∀ level : Int, levelPrefix level ++ "--program--\n" ≠ unknownNodeLine)
    ∧ (∀ level : Int, levelPrefix level ++ "--params--\n" ≠ unknownNodeLine)
    ∧ (∀ level : Int, levelPrefix level ++ "--locals--\n" ≠ unknownNodeLine)
    ∧ (∀ level : Int, levelPrefix level ++ "--body--\n" ≠ unknownNodeLine)
    ∧ (∀ level : Int, levelPrefix level ++ "--index--\n" ≠ unknownNodeLine)
    ∧ (∀ level : Int, levelPrefix level ++ "--right hand side--\n" ≠ unknownNodeLine)
    ∧ (∀ level : Int, levelPrefix level ++ "--ifpart--\n" ≠ unknownNodeLine)
    ∧ (∀ level : Int, levelPrefix level ++ "--elsepart--\n" ≠ unknownNodeLine) := by
  refine ⟨?_, ?_, ?_, ?_, ?_, ?_, ?_, ?_, ?_, ?_, ?_, ?_, ?_, ?_, ?_, ?_, ?_, ?_, ?_, ?_, ?_, ?_, ?_, ?_, ?_, ?_, ?_, ?_, ?_, ?_, ?_, ?_, ?_, ?_⟩
  · exact fun b => lit_append_ne _ b (by decide) (by decide)
  · exact fun b => lit_append_ne _ b (by decide) (by decide)
  · exact fun b => lit_append_ne _ b (by decide) (by decide)
  · exact fun b => lit_append_ne _ b (by decide) (by decide)
  · exact fun b => lit_append_ne _ b (by decide) (by decide)
  · exact fun b => lit_append_ne _ b (by decide) (by decide)
  · exact fun b => lit_append_ne _ b (by decide) (by decide)
  · exact fun b => lit_append_ne _ b (by decide) (by decide)
  · exact fun b => lit_append_ne _ b (by decide) (by decide)
  · exact fun b => lit_append_ne _ b (by decide) (by decide)
  · exact fun b => lit_append_ne _ b (by decide) (by decide)
  · decide
  · decide
  · decide
  · decide
  · decide
  · decide
  · decide
  · decide
  · decide
  · decide
  · decide
  · decide
  · decide
  · exact fun level => levelPrefix_append_ne level _ (by decide)
  · exact fun level => levelPrefix_append_ne level _ (by decide)
  · exact fun level => levelPrefix_append_ne level _ (by decide)
  · exact fun level => levelPrefix_append_ne level _ (by decide)
  · exact fun level => levelPrefix_append_ne level _ (by decide)
  · exact fun level => levelPrefix_append_ne level _ (by decide)
  · exact fun level => levelPrefix_append_ne level _ (by decide)
  · exact fun level => levelPrefix_append_ne level _ (by decide)
  · exact fun level => levelPrefix_append_ne level _ (by decide)
  · exact fun level => levelPrefix_append_ne level _ (by decide)

/-- The placeholder lines written by the printer are as many as the nodes of undefined kind
among the nodes it prints. -/
theorem printASTree_sentinels (t : ASTNode) : ∀ level : Int,
    sentinelWrites (printASTree t level) = (printedNodes t).countP isUndefinedNode := by
  obtain ⟨p1, p2, p3, p4, p5, p6, p7, p8, p9, p10, p11, p12, p13, p14, p15, p16, p17, p18, p19, p20, p21, p22, p23, p24, p25, p26, p27, p28, p29, p30, p31, p32, p33, p34⟩ := label_texts_ne
  have q : "Unknown AST node!\n" = unknownNodeLine := rfl
  induction t with
  | null => intro level; rfl
  | node d c0 c1 c2 nx ih0 ih1 ih2 ihn =>
    intro level
    rcases d with ⟨ty, vt, vk, iv, sv, nf⟩
    rw [printASTree, printedNodes]
    cases ty <;>
      simp only [String.append_assoc, sentinelWrites_append, sentinelWrites_cons_out,
        sentinelWrites_cons_stdout, sentinelWrites_nil, List.countP_cons, List.countP_append,
        List.countP_nil, isUndefinedNode, isDefinedKind, ih0, ih1, ih2, ihn, levelPrefix_ne, q,
        eq_self_iff_true,
        p1, p2, p3, p4, p5, p6, p7, p8, p9, p10, p11, p12, p13, p14, p15, p16, p17, p18, p19, p20, p21, p22, p23, p24, p25, p26, p27, p28, p29, p30, p31, p32, p33, p34, if_false, Bool.not_true, Bool.not_false, Bool.false_eq_true, if_true] <;>
      (try split_ifs) <;>
      (try simp only [String.append_assoc, sentinelWrites_append, sentinelWrites_cons_out,
        sentinelWrites_cons_stdout, sentinelWrites_nil, List.countP_cons, List.countP_append,
        List.countP_nil, ih0, ih1, ih2, ihn, levelPrefix_ne,
        p1, p2, p3, p4, p5, p6, p7, p8, p9, p10, p11, p12, p13, p14, p15, p16, p17, p18, p19, p20, p21, p22, p23, p24, p25, p26, p27, p28, p29, p30, p31, p32, p33, p34, if_false, if_true]) <;>
      first | omega | (exfalso; simp_all)

/-- C13: `printASTree` is a total function on (finite) trees. Among its writes the
placeholder line `Unknown AST node!` occurs once for every printed node whose kind is not
one of the 14 defined kinds and never for a node of a defined kind; and a node of undefined
kind writes its indentation and the placeholder line, prints no child, and the traversal
goes on with its `next` chain at the same level. -/
theorem C13_printer_sentinel (t : ASTNode) (level : Int) :
    sentinelWrites (printASTree t level) = (printedNodes t).countP isUndefinedNode
    ∧ (∀ (d : NodeData) (c0 c1 c2 nx : ASTNode), isDefinedKind d.type = false →
        printASTree (.node d c0 c1 c2 nx) level
          = [(Sink.out, levelPrefix level), (Sink.out, unknownNodeLine)]
              ++ printASTree nx level)
    ∧ (∀ (d : NodeData) (c0 c1 c2 nx : ASTNode), isDefinedKind d.type = true →
        sentinelWrites (printASTree (.node d c0 c1 c2 nx) level)
          = (printedNodes (.node d c0 c1 c2 nx)).tail.countP isUndefinedNode) := by
  refine ⟨printASTree_sentinels t level, fun d c0 c1 c2 nx h => ?_, fun d c0 c1 c2 nx h => ?_⟩
  · rcases d with ⟨ty, vt, vk, iv, sv, nf⟩
    cases ty <;> simp only [isDefinedKind, reduceCtorEq] at h
    rw [printASTree]
    rfl
  · rw [printASTree_sentinels, printedNodes]
    simp [List.countP_cons, isUndefinedNode, h]

/-! ## The collector and the IfThenElse label -/

theorem grabOwn_length (d : NodeData) (s : GenState) :
    (grabOwn d s).2.length = (literalText d).toList.length := by
  unfold grabOwn literalText
  split_ifs with h
  · cases hs : d.strval with
    | none => rfl
    | some str =>
      simp only
      split_ifs <;> rfl
  · rfl

/-- The collector writes as many lines as the tree has qualifying nodes, in every state. -/
theorem grabStrings_length (t : ASTNode) : ∀ s : GenState,
    (grabStrings t s).2.length = (stringLits t).length := by
  induction t with
  | null => intro s; rfl
  | node d c0 c1 c2 nx ih0 ih1 ih2 ihn =>
    intro s
    simp only [grabStrings, stringLits, List.length_append, ih0, ih1, ih2, ihn, grabOwn_length]

/-- C14 (counterexample): an Argument node of value type String whose text begins with a
quote gets a declaration line although it is not a Constant node. -/
theorem C14_counterexample :
    (grabStrings quotedArgument { initState with lastStringIndex := 0 }).2
      = [Asm.strDecl 0 (some "\"a\"")]
    ∧ (generatedNodes quotedArgument).map (fun d => d.type)
      = [.AST_PROGRAM, .AST_FUNCALL, .AST_ARGUMENT, .AST_CONSTANT]
    ∧ (generatedNodes quotedArgument).map (fun d => d.valType)
      = [.T_RETURNVAL, .T_RETURNVAL, .T_STRING, .T_INT] := by
  decide

/-- C14 (amended): for every node of a tree and every state, the collector's output for the
node is the output for its children 0, 1, 2, then the node's own part, then the output for
its `next` chain; the own part is one declaration line, carrying the node's text, if and
only if the node's value type is String and its text is present and begins with the quote
character, whatever the node's kind, and is empty otherwise. Over a whole tree the number
of lines is the number of nodes passing this test. -/
theorem C14_collector_line_iff (d : NodeData) (c0 c1 c2 nx : ASTNode) (s : GenState) :
    (∃ own : List Asm,
      (grabStrings (.node d c0 c1 c2 nx) s).2
        = (grabStrings c0 s).2 ++ (grabStrings c1 (grabStrings c0 s).1).2
            ++ (grabStrings c2 (grabStrings c1 (grabStrings c0 s).1).1).2 ++ own
            ++ (grabStrings nx
                  (grabOwn d (grabStrings c2 (grabStrings c1 (grabStrings c0 s).1).1).1).1).2
      ∧ ((d.valType = .T_STRING ∧ ∃ txt, d.strval = some txt ∧ startsWithQuote txt = true) →
          ∃ txt, d.strval = some txt ∧ own
            = [Asm.strDecl
                (grabStrings c2 (grabStrings c1 (grabStrings c0 s).1).1).1.lastStringIndex
                (some txt)])
      ∧ (¬ (d.valType = .T_STRING ∧ ∃ txt, d.strval = some txt ∧ startsWithQuote txt = true) →
          own = []))
    ∧ (grabStrings (.node d c0 c1 c2 nx) s).2.length
        = (stringLits (.node d c0 c1 c2 nx)).length := by
  refine ⟨⟨(grabOwn d (grabStrings c2 (grabStrings c1 (grabStrings c0 s).1).1).1).2, ?_, ?_, ?_⟩,
    grabStrings_length _ s⟩
  · rw [grabStrings]
  · rintro ⟨hv, txt, hs, hq⟩
    refine ⟨txt, hs, ?_⟩
    simp [grabOwn, hv, hs, hq, addString]
  · intro hn
    unfold grabOwn
    split_ifs with hv
    · cases hs : d.strval with
      | none => rfl
      | some str =>
        simp only
        split_ifs with hq
        · exact absurd ⟨hv, str, hs, hq⟩ hn
        · rfl
    · rfl

theorem C14_collector_line_iff_witness :
    (grabStrings threeLiterals initState).2.length = 3 :=
  (C14_collector_line_iff programData .null .null threeLiteralsBody .null initState).2

/-- C15 (failing input): printing an IfThenElse node writes its indentation to `out` and its
label `If-Then-Else` to the standard output. -/
theorem C15_ifthenelse_label_goes_to_stdout :
    printASTree (leaf ⟨.AST_IFTHENELSE, .T_RETURNVAL, .V_GLOBAL, 0, none, false⟩) 0
      = [(Sink.out, ""), (Sink.stdout, "If-Then-Else\n")] := by
  decide

/-- The writes of the printer that go to the standard output are as many as the IfThenElse
nodes printed: every other kind writes to `out` only. -/
theorem printASTree_stdoutWrites (t : ASTNode) : ∀ level : Int,
    stdoutWrites (printASTree t level) = (printedNodes t).countP isIfThenElseNode := by
  induction t with
  | null => intro level; rfl
  | node d c0 c1 c2 nx ih0 ih1 ih2 ihn =>
    intro level
    rcases d with ⟨ty, vt, vk, iv, sv, nf⟩
    have a0 := fun l => ih0 l
    have a1 := fun l => ih1 l
    have a2 := fun l => ih2 l
    have an := fun l => ihn l
    unfold stdoutWrites at a0 a1 a2 an ⊢
    rw [printASTree, printedNodes]
    cases ty <;>
      simp only [List.countP_append, List.countP_cons, List.countP_nil, isIfThenElseNode,
        a0, a1, a2, an, reduceCtorEq, decide_False, decide_True, Bool.false_eq_true, if_false,
        if_true] <;>
      (try split_ifs) <;>
      (try simp only [List.countP_append, List.countP_cons, List.countP_nil,
        a0, a1, a2, an, reduceCtorEq, decide_False, decide_True, Bool.false_eq_true, if_false,
        if_true]) <;>
      omega

/-! ## Frame slots and placeholder lines -/

theorem frameOffset_eq (k : Int) (h : -536870914 ≤ k ∧ k ≤ 536870909) :
    frameOffset k = 4 * (k + 2) := by
  unfold frameOffset wrap32
  omega

/-- C16: an Assignment and a VariableRef of storage class Param or Local with `ival = k`
address the same offset from `fp`, the value `(k+2)*4` of the source: the store is
`sw t0, <off>(fp)` and the load is `lw t0, <off>(fp)`. For every frame-slot index `k` (any
`k` for which `(k+2)*4` does not leave the range of `int`, which includes every slot of a
frame) this offset is `4 * (k + 2)`. The function prologue, which every Function node writes
after its label, sets `fp` to `sp` and then saves `a0..a5` at the offsets 8, 12, ..., 28 from
`sp`, so for `k = 0..5` the register `a<k>` is saved at the offset `4 * (k + 2)`. -/
theorem C16_frame_slot_offsets (da dr : NodeData) (a0 a1 a2 anx r0 r1 r2 rnx : ASTNode)
    (hval : Int) (s : GenState) (k : Int)
    (hat : da.type = .AST_ASSIGNMENT) (hak : da.varKind = .V_PARAM ∨ da.varKind = .V_LOCAL)
    (hai : da.ival = k)
    (hrt : dr.type = .AST_VARREF) (hrk : dr.varKind = .V_PARAM ∨ dr.varKind = .V_LOCAL)
    (hri : dr.ival = k) :
    (genCodeFromASTree (.node da a0 a1 a2 anx) hval s).2
        = [Asm.indent (levelPrefix hval), Asm.txt "\t#--assignment--\n"]
            ++ (genCodeFromASTree a0 1 s).2 ++ [Asm.sw .t0 (frameOffset k) .fp]
            ++ (genCodeFromASTree anx 0 (genCodeFromASTree a0 1 s).1).2
    ∧ (genCodeFromASTree (.node dr r0 r1 r2 rnx) hval s).2
        = [Asm.indent (levelPrefix hval), Asm.lw .t0 (frameOffset k) .fp]
            ++ (genCodeFromASTree rnx 0 s).2
    ∧ (-536870914 ≤ k → k ≤ 536870909 → frameOffset k = 4 * (k + 2))
    ∧ prologue
        = [Asm.addi .sp .sp (-128), Asm.sw .fp 4 .sp, Asm.sw .ra 0 .sp, Asm.mv .fp .sp]
            ++ (List.range 6).map (fun j => Asm.sw (.a (j : Int)) (4 * ((j : Int) + 2)) .sp)
    ∧ (0 ≤ k → k ≤ 5 → Asm.sw (.a k) (frameOffset k) .sp ∈ prologue)
    ∧ (∀ (df : NodeData) (f0 f1 f2 fnx : ASTNode), df.type = .AST_FUNCTION →
        (genCodeFromASTree (.node df f0 f1 f2 fnx) hval s).2
          = [Asm.indent (levelPrefix hval), Asm.funComment df.strval, Asm.symLabel df.strval]
              ++ prologue ++ (genCodeFromASTree f1 0 s).2 ++ epilogue
              ++ (genCodeFromASTree fnx 0 (genCodeFromASTree f1 0 s).1).2) := by
  refine ⟨?_, ?_, fun h0 h1 => frameOffset_eq k ⟨h0, h1⟩, by decide, ?_, ?_⟩
  · rw [genCodeFromASTree]
    have hg : da.varKind ≠ .V_GLOBAL := by rcases hak with h | h <;> rw [h] <;> decide
    simp only [hat, hg, hak, if_false, if_true, hai]
    simp only [List.singleton_append, List.cons_append, List.append_assoc, List.nil_append]
  · rw [genCodeFromASTree]
    have hg : dr.varKind ≠ .V_GLOBAL := by rcases hrk with h | h <;> rw [h] <;> decide
    simp only [hrt, hg, hrk, if_false, if_true, hri]
    simp only [List.singleton_append, List.cons_append, List.append_assoc, List.nil_append]
  · intro h0 h5
    have hcases : k = 0 ∨ k = 1 ∨ k = 2 ∨ k = 3 ∨ k = 4 ∨ k = 5 := by omega
    rcases hcases with h | h | h | h | h | h <;> subst h <;> decide
  · intro df f0 f1 f2 fnx hf
    rw [genCodeFromASTree]
    simp only [hf]
    simp only [List.singleton_append, List.cons_append, List.append_assoc, List.nil_append]

theorem C16_frame_slot_offsets_witness :
    (genCodeFromASTree assignSlot3 0 initState).2
        = [Asm.indent "", Asm.txt "\t#--assignment--\n", Asm.indent "   ", Asm.li .t0 7,
           Asm.sw .t0 20 .fp]
    ∧ (genCodeFromASTree refSlot3 0 initState).2 = [Asm.indent "", Asm.lw .t0 20 .fp]
    ∧ frameOffset 3 = 4 * (3 + 2)
    ∧ Asm.sw (.a 3) (frameOffset 3) .sp ∈ prologue := by
  have h := C16_frame_slot_offsets ⟨.AST_ASSIGNMENT, .T_INT, .V_LOCAL, 3, some "v", false⟩
    ⟨.AST_VARREF, .T_INT, .V_PARAM, 3, some "v", false⟩ (intConst 7) .null .null .null
    .null .null .null .null 0 initState 3 rfl (Or.inr rfl) rfl rfl (Or.inl rfl) rfl
  exact ⟨h.1, h.2.1, h.2.2.1 (by decide) (by decide), h.2.2.2.2.1 (by decide) (by decide)⟩

/-- C17: the four defensive cases of the generator. For an Expression whose operator code is
neither `+` (43) nor `-` (45), a RelationalExpression whose code is none of `=` (61),
`!` (33), `<` (60), `>` (62), and an Assignment or VariableRef whose storage class is none
of the four defined ones, the generator returns a result: the output is that of the
well-formed node with the same children except that the instruction is replaced by the
placeholder (`unknown ADDOP` or `unknown relop` as mnemonic, the lines
`unknown var kind assignment` or `unknown var kind reference`), and the `next` chain is
generated afterwards from the same state as for the well-formed node. -/
theorem C17_placeholders_then_next (d : NodeData) (c0 c1 c2 nx : ASTNode) (hval : Int)
    (s : GenState) :
    (d.type = .AST_EXPRESSION → d.ival ≠ 43 → d.ival ≠ 45 →
      ∃ (st : GenState) (pre : List Asm),
        genCodeFromASTree (.node d c0 c1 c2 nx) hval s
          = ((genCodeFromASTree nx 0 st).1,
             pre ++ [Asm.op3 "unknown ADDOP" .t0 .t1 .t0] ++ (genCodeFromASTree nx 0 st).2)
        ∧ genCodeFromASTree (.node { d with ival := 43 } c0 c1 c2 nx) hval s
          = ((genCodeFromASTree nx 0 st).1,
             pre ++ [Asm.op3 "add" .t0 .t1 .t0] ++ (genCodeFromASTree nx 0 st).2))
    ∧ (d.type = .AST_RELEXPR → d.ival ≠ 61 → d.ival ≠ 33 → d.ival ≠ 60 → d.ival ≠ 62 →
      ∃ (st : GenState) (pre : List Asm) (target : Int),
        genCodeFromASTree (.node d c0 c1 c2 nx) hval s
          = ((genCodeFromASTree nx 0 st).1,
             pre ++ [Asm.branch "unknown relop" .t1 .t0 target]
               ++ (genCodeFromASTree nx 0 st).2)
        ∧ ∃ pre2, genCodeFromASTree (.node { d with ival := 61 } c0 c1 c2 nx) hval s
          = ((genCodeFromASTree nx 0 st).1,
             pre2 ++ [Asm.branch "beq" .t1 .t0 target] ++ (genCodeFromASTree nx 0 st).2))
    ∧ (d.type = .AST_ASSIGNMENT → d.varKind ≠ .V_GLOBAL → d.varKind ≠ .V_GLARRAY →
        d.varKind ≠ .V_PARAM → d.varKind ≠ .V_LOCAL →
      ∃ (st : GenState) (pre : List Asm),
        genCodeFromASTree (.node d c0 c1 c2 nx) hval s
          = ((genCodeFromASTree nx 0 st).1,
             pre ++ [Asm.txt "unknown var kind assignment\n"] ++ (genCodeFromASTree nx 0 st).2)
        ∧ genCodeFromASTree (.node { d with varKind := .V_GLOBAL } c0 c1 c2 nx) hval s
          = ((genCodeFromASTree nx 0 st).1,
             pre ++ [Asm.swSym .t0 d.strval .t1] ++ (genCodeFromASTree nx 0 st).2))
    ∧ (d.type = .AST_VARREF → d.varKind ≠ .V_GLOBAL → d.varKind ≠ .V_GLARRAY →
        d.varKind ≠ .V_PARAM → d.varKind ≠ .V_LOCAL →
      ∃ (st : GenState) (pre : List Asm),
        genCodeFromASTree (.node d c0 c1 c2 nx) hval s
          = ((genCodeFromASTree nx 0 st).1,
             pre ++ [Asm.txt "unknown var kind reference\n"] ++ (genCodeFromASTree nx 0 st).2)
        ∧ genCodeFromASTree (.node { d with varKind := .V_GLOBAL } c0 c1 c2 nx) hval s
          = ((genCodeFromASTree nx 0 st).1,
             pre ++ [Asm.lwSym .t0 d.strval] ++ (genCodeFromASTree nx 0 st).2)) := by
  refine ⟨fun ht h1 h2 => ?_, fun ht h1 h2 h3 h4 => ?_, fun ht h1 h2 h3 h4 => ?_,
    fun ht h1 h2 h3 h4 => ?_⟩
  · refine ⟨(genCodeFromASTree c1 1 (genCodeFromASTree c0 1 s).1).1,
      [Asm.indent (levelPrefix hval), Asm.txt "\t#--binary-op-expression--\n"]
        ++ (genCodeFromASTree c0 1 s).2 ++ pushT0
        ++ (genCodeFromASTree c1 1 (genCodeFromASTree c0 1 s).1).2
        ++ [Asm.lw .t1 0 .sp, Asm.addi .sp .sp 4], ?_, ?_⟩
    · rw [genCodeFromASTree]
      simp only [ht, addopInstr, h1, h2, if_false]
      simp only [List.singleton_append, List.cons_append, List.append_assoc, List.nil_append]
    · rw [genCodeFromASTree]
      simp only [ht, addopInstr, if_true]
      simp only [List.singleton_append, List.cons_append, List.append_assoc, List.nil_append]
  · refine ⟨{ (genCodeFromASTree c1 0 (genCodeFromASTree c0 0 s).1).1 with
        labelCount := wrap32 ((genCodeFromASTree c1 0 (genCodeFromASTree c0 0 s).1).1.labelCount
          + 1) },
      [Asm.indent (levelPrefix hval), Asm.relComment d.ival]
        ++ (genCodeFromASTree c0 0 s).2 ++ pushT0
        ++ (genCodeFromASTree c1 0 (genCodeFromASTree c0 0 s).1).2
        ++ [Asm.lw .t1 0 .sp, Asm.addi .sp .sp 4],
      (genCodeFromASTree c1 0 (genCodeFromASTree c0 0 s).1).1.labelCount, ?_,
      [Asm.indent (levelPrefix hval), Asm.relComment 61]
        ++ (genCodeFromASTree c0 0 s).2 ++ pushT0
        ++ (genCodeFromASTree c1 0 (genCodeFromASTree c0 0 s).1).2
        ++ [Asm.lw .t1 0 .sp, Asm.addi .sp .sp 4], ?_⟩
    · rw [genCodeFromASTree]
      simp only [ht, relopInstr, h1, h2, h3, h4, if_false]
      simp only [List.singleton_append, List.cons_append, List.append_assoc, List.nil_append]
    · rw [genCodeFromASTree]
      simp only [ht, relopInstr, if_true]
      simp only [List.singleton_append, List.cons_append, List.append_assoc, List.nil_append]
  · refine ⟨(genCodeFromASTree c0 1 s).1,
      [Asm.indent (levelPrefix hval), Asm.txt "\t#--assignment--\n"]
        ++ (genCodeFromASTree c0 1 s).2, ?_, ?_⟩
    · rw [genCodeFromASTree]
      simp only [ht, h1, h2, h3, h4, if_false, or_self]
      simp only [List.singleton_append, List.cons_append, List.append_assoc, List.nil_append]
    · rw [genCodeFromASTree]
      simp only [ht, if_true]
      simp only [List.singleton_append, List.cons_append, List.append_assoc, List.nil_append]
  · refine ⟨s, [Asm.indent (levelPrefix hval)], ?_, ?_⟩
    · rw [genCodeFromASTree]
      simp only [ht, h1, h2, h3, h4, if_false, or_self]
    · rw [genCodeFromASTree]
      simp only [ht, if_true]

theorem C17_placeholders_then_next_witness :
    (∃ (st : GenState) (pre : List Asm),
      genCodeFromASTree (.node timesData (intConst 2) (intConst 3) .null (intConst 4)) 0 initState
        = ((genCodeFromASTree (intConst 4) 0 st).1,
           pre ++ [Asm.op3 "unknown ADDOP" .t0 .t1 .t0] ++ (genCodeFromASTree (intConst 4) 0 st).2)
      ∧ genCodeFromASTree
          (.node { timesData with ival := 43 } (intConst 2) (intConst 3) .null (intConst 4))
          0 initState
        = ((genCodeFromASTree (intConst 4) 0 st).1,
           pre ++ [Asm.op3 "add" .t0 .t1 .t0] ++ (genCodeFromASTree (intConst 4) 0 st).2))
    ∧ (∃ (st : GenState) (pre : List Asm) (target : Int),
      genCodeFromASTree (.node queryRelData (globalRef "i") (intConst 10) .null (intConst 4))
          0 initState
        = ((genCodeFromASTree (intConst 4) 0 st).1,
           pre ++ [Asm.branch "unknown relop" .t1 .t0 target]
             ++ (genCodeFromASTree (intConst 4) 0 st).2)
      ∧ ∃ pre2, genCodeFromASTree
          (.node { queryRelData with ival := 61 } (globalRef "i") (intConst 10) .null
            (intConst 4)) 0 initState
        = ((genCodeFromASTree (intConst 4) 0 st).1,
           pre2 ++ [Asm.branch "beq" .t1 .t0 target] ++ (genCodeFromASTree (intConst 4) 0 st).2))
    ∧ (∃ (st : GenState) (pre : List Asm),
      genCodeFromASTree (.node oddAssignData (intConst 7) .null .null (intConst 4)) 0 initState
        = ((genCodeFromASTree (intConst 4) 0 st).1,
           pre ++ [Asm.txt "unknown var kind assignment\n"]
             ++ (genCodeFromASTree (intConst 4) 0 st).2)
      ∧ genCodeFromASTree
          (.node { oddAssignData with varKind := .V_GLOBAL } (intConst 7) .null .null
            (intConst 4)) 0 initState
        = ((genCodeFromASTree (intConst 4) 0 st).1,
           pre ++ [Asm.swSym .t0 oddAssignData.strval .t1]
             ++ (genCodeFromASTree (intConst 4) 0 st).2))
    ∧ (∃ (st : GenState) (pre : List Asm),
      genCodeFromASTree (.node oddRefData .null .null .null (intConst 4)) 0 initState
        = ((genCodeFromASTree (intConst 4) 0 st).1,
           pre ++ [Asm.txt "unknown var kind reference\n"]
             ++ (genCodeFromASTree (intConst 4) 0 st).2)
      ∧ genCodeFromASTree
          (.node { oddRefData with varKind := .V_GLOBAL } .null .null .null (intConst 4))
          0 initState
        = ((genCodeFromASTree (intConst 4) 0 st).1,
           pre ++ [Asm.lwSym .t0 oddRefData.strval] ++ (genCodeFromASTree (intConst 4) 0 st).2)) :=
  ⟨(C17_placeholders_then_next timesData (intConst 2) (intConst 3) .null (intConst 4) 0
      initState).1 rfl (by decide) (by decide),
   (C17_placeholders_then_next queryRelData (globalRef "i") (intConst 10) .null (intConst 4) 0
      initState).2.1 rfl (by decide) (by decide) (by decide) (by decide),
   (C17_placeholders_then_next oddAssignData (intConst 7) .null .null (intConst 4) 0
      initState).2.2.1 rfl (by decide) (by decide) (by decide) (by decide),
   (C17_placeholders_then_next oddRefData .null .null .null (intConst 4) 0
      initState).2.2.2 rfl (by decide) (by decide) (by decide) (by decide)⟩

/-- The texts of the four placeholders as they appear in the output. -/
theorem placeholder_texts :
    (Asm.op3 "unknown ADDOP" .t0 .t1 .t0).render = "\tunknown ADDOP\t\tt0, t1, t0\n"
    ∧ (Asm.branch "unknown relop" .t1 .t0 100).render = "\tunknown relop\t\tt1, t0, .LL100\n"
    ∧ (Asm.txt "unknown var kind assignment\n").render = "unknown var kind assignment\n"
    ∧ (Asm.txt "unknown var kind reference\n").render = "unknown var kind reference\n" :=
  ⟨rfl, rfl, rfl, rfl⟩

/-! ## Pushes and pops of the scratch stack -/

theorem scanStack_cons (a : Asm) (l : List Asm) (k : Nat) :
    scanStack (a :: l) k
      = if a = pushItem then scanStack l (k + 1)
        else if a = popItem then
          match k with
          | 0 => none
          | j + 1 => scanStack l j
        else scanStack l k := by
  cases k <;> rfl

theorem scanStack_append (a b : List Asm) : ∀ k : Nat,
    scanStack (a ++ b) k = (scanStack a k).bind fun j => scanStack b j := by
  induction a with
  | nil => intro k; rfl
  | cons x xs ih =>
    intro k
    rw [List.cons_append, scanStack_cons, scanStack_cons]
    split_ifs
    · exact ih _
    · cases k with
      | zero => rfl
      | succ j => exact ih j
    · exact ih _

theorem scanStack_push (l : List Asm) (k : Nat) :
    scanStack (Asm.addi .sp .sp (-4) :: l) k = scanStack l (k + 1) := by
  rw [scanStack_cons]
  simp [pushItem]

theorem scanStack_pop (l : List Asm) (k : Nat) :
    scanStack (Asm.addi .sp .sp 4 :: l) (k + 1) = scanStack l k := by
  rw [scanStack_cons]
  simp [pushItem, popItem]

theorem scanStack_other (a : Asm) (l : List Asm) (k : Nat) (h1 : a ≠ pushItem)
    (h2 : a ≠ popItem) : scanStack (a :: l) k = scanStack l k := by
  rw [scanStack_cons]
  simp [h1, h2]

/-- A scan that succeeds accounts for every push and pop, and no prefix of the output has
more pops than the starting depth plus its pushes. -/
theorem scanStack_sound (l : List Asm) : ∀ k j : Nat, scanStack l k = some j →
    j + pops l = k + pushes l ∧ ∀ n : Nat, pops (l.take n) ≤ k + pushes (l.take n) := by
  induction l with
  | nil =>
    intro k j h
    simp only [scanStack, Option.some.injEq] at h
    simp [pops, pushes, h]
  | cons x xs ih =>
    intro k j h
    rw [scanStack_cons] at h
    by_cases hp : x = pushItem
    · simp only [hp, if_true] at h
      obtain ⟨e, pre⟩ := ih (k + 1) j h
      subst hp
      have hne : ¬ (pushItem = popItem) := by decide
      refine ⟨?_, fun n => ?_⟩
      · simp only [pops, pushes, List.count_cons, beq_iff_eq, hne, if_false, if_true] at e ⊢
        omega
      · cases n with
        | zero => simp [pops, pushes]
        | succ m =>
          have := pre m
          simp only [pops, pushes, List.take_succ_cons, List.count_cons, beq_iff_eq, hne,
            if_false, if_true] at this ⊢
          omega
    · simp only [hp, if_false] at h
      by_cases hq : x = popItem
      · simp only [hq, if_true] at h
        cases k with
        | zero => simp at h
        | succ k0 =>
          simp only at h
          obtain ⟨e, pre⟩ := ih k0 j h
          subst hq
          have hne : ¬ (popItem = pushItem) := by decide
          refine ⟨?_, fun n => ?_⟩
          · simp only [pops, pushes, List.count_cons, beq_iff_eq, hne, if_false, if_true] at e ⊢
            omega
          · cases n with
            | zero => simp [pops, pushes]
            | succ m =>
              have := pre m
              simp only [pops, pushes, List.take_succ_cons, List.count_cons, beq_iff_eq, hne,
                if_false, if_true] at this ⊢
              omega
      · simp only [hq, if_false] at h
        obtain ⟨e, pre⟩ := ih k j h
        refine ⟨?_, fun n => ?_⟩
        · simp only [pops, pushes, List.count_cons, beq_iff_eq, hp, hq, if_false] at e ⊢
          omega
        · cases n with
          | zero => simp [pops, pushes]
          | succ m =>
            have := pre m
            simp only [pops, pushes, List.take_succ_cons, List.count_cons, beq_iff_eq, hp, hq,
              if_false] at this ⊢
            omega

theorem scanStack_fixed (k : Nat) :
    scanStack programHeader k = some k ∧ scanStack globalsHeader k = some k
    ∧ scanStack textHeader k = some k ∧ scanStack exitSequence k = some k
    ∧ scanStack libraryFunctions k = some k ∧ scanStack prologue k = some k
    ∧ scanStack epilogue k = some k := by
  refine ⟨?_, ?_, ?_, ?_, ?_, ?_, ?_⟩ <;>
    simp [programHeader, globalsHeader, textHeader, exitSequence, libraryFunctions, prologue,
      epilogue, scanStack_cons, scanStack, pushItem, popItem]

theorem scanStack_grabOwn (d : NodeData) (s : GenState) (k : Nat) :
    scanStack (grabOwn d s).2 k = some k := by
  unfold grabOwn
  split_ifs
  · split
    · split_ifs
      · simp [scanStack_cons, scanStack, pushItem, popItem]
      · rfl
    · rfl
  · rfl

theorem scanStack_grabStrings (t : ASTNode) : ∀ (s : GenState) (k : Nat),
    scanStack (grabStrings t s).2 k = some k := by
  induction t with
  | null => intro s k; rfl
  | node d c0 c1 c2 nx ih0 ih1 ih2 ihn =>
    intro s k
    simp only [grabStrings, scanStack_append, ih0, ih1, ih2, ihn, scanStack_grabOwn,
      Option.some_bind]

/-- Scanning the output of the generator from any depth of the scratch stack succeeds and
ends at the same depth. -/
theorem scanStack_gen (t : ASTNode) : ∀ (hval : Int) (s : GenState) (k : Nat),
    scanStack (genCodeFromASTree t hval s).2 k = some k := by
  induction t with
  | null => intro hval s k; rfl
  | node d c0 c1 c2 nx ih0 ih1 ih2 ihn =>
    intro hval s k
    rcases d with ⟨ty, vt, vk, iv, sv, nf⟩
    obtain ⟨f1, f2, f3, f4, f5, f6, f7⟩ :
        (∀ k, scanStack programHeader k = some k) ∧ (∀ k, scanStack globalsHeader k = some k)
        ∧ (∀ k, scanStack textHeader k = some k) ∧ (∀ k, scanStack exitSequence k = some k)
        ∧ (∀ k, scanStack libraryFunctions k = some k) ∧ (∀ k, scanStack prologue k = some k)
        ∧ (∀ k, scanStack epilogue k = some k) :=
      ⟨fun k => (scanStack_fixed k).1, fun k => (scanStack_fixed k).2.1,
       fun k => (scanStack_fixed k).2.2.1, fun k => (scanStack_fixed k).2.2.2.1,
       fun k => (scanStack_fixed k).2.2.2.2.1, fun k => (scanStack_fixed k).2.2.2.2.2.1,
       fun k => (scanStack_fixed k).2.2.2.2.2.2⟩
    rw [genCodeFromASTree]
    cases ty <;>
      simp only [getUniqueLabelID] <;>
      (try split_ifs) <;>
      simp [scanStack_append, scanStack_cons, scanStack, pushItem, popItem, pushT0,
        ih0, ih1, ih2, ihn, f1, f2, f3, f4, f5, f6, f7, scanStack_grabStrings]

/-- C18: for every tree, in the output of the generator the pushes `addi sp, sp, -4` and the
pops `addi sp, sp, 4` are balanced like parentheses: every prefix of the output has at least
as many pushes as pops, and the whole output has as many pushes as pops. -/
theorem C18_pushes_pops_balanced (t : ASTNode) (hval : Int) (s : GenState) :
    (∀ n : Nat, pops ((genCodeFromASTree t hval s).2.take n)
        ≤ pushes ((genCodeFromASTree t hval s).2.take n))
    ∧ pushes (genCodeFromASTree t hval s).2 = pops (genCodeFromASTree t hval s).2 := by
  obtain ⟨e, pre⟩ := scanStack_sound _ 0 0 (scanStack_gen t hval s 0)
  refine ⟨fun n => ?_, ?_⟩
  · have := pre n
    omega
  · omega

/-- The pushes and pops of `(7 - 10) + 2`: two pairs, one after the other. -/
theorem pushes_pops_nestedArith :
    (genCodeFromASTree nestedArith 0 initState).2.filter
        (fun a => decide (a = pushItem) || decide (a = popItem))
      = [pushItem, popItem, pushItem, popItem] := by
  decide

/-! ## The sentinel line of the generator -/

theorem sentinelItems_append (a b : List Asm) :
    sentinelItems (a ++ b) = sentinelItems a + sentinelItems b := by
  simp [sentinelItems, List.count_append]

theorem sentinelItems_cons (a : Asm) (l : List Asm) :
    sentinelItems (a :: l) = sentinelItems l + if a = Asm.txt unknownNodeLine then 1 else 0 := by
  unfold sentinelItems
  rw [List.count_cons]
  simp

theorem sentinelItems_fixed :
    sentinelItems programHeader = 0 ∧ sentinelItems globalsHeader = 0
    ∧ sentinelItems textHeader = 0 ∧ sentinelItems exitSequence = 0
    ∧ sentinelItems libraryFunctions = 0 ∧ sentinelItems prologue = 0
    ∧ sentinelItems epilogue = 0 ∧ sentinelItems pushT0 = 0 := by
  decide

theorem sentinelItems_grabOwn (d : NodeData) (s : GenState) :
    sentinelItems (grabOwn d s).2 = 0 := by
  unfold grabOwn
  split_ifs
  · split
    · split_ifs
      · simp [sentinelItems]
      · rfl
    · rfl
  · rfl

theorem sentinelItems_grabStrings (t : ASTNode) : ∀ s : GenState,
    sentinelItems (grabStrings t s).2 = 0 := by
  induction t with
  | null => intro s; rfl
  | node d c0 c1 c2 nx ih0 ih1 ih2 ihn =>
    intro s
    simp only [grabStrings, sentinelItems_append, ih0, ih1, ih2, ihn, sentinelItems_grabOwn]

/-- The placeholder lines in the output of the generator are as many as the generated nodes
whose kind has no `case`. -/
theorem sentinelItems_gen (t : ASTNode) : ∀ (hval : Int) (s : GenState),
    sentinelItems (genCodeFromASTree t hval s).2
      = (generatedNodes t).countP isUngeneratedKind := by
  obtain ⟨f1, f2, f3, f4, f5, f6, f7, f8⟩ := sentinelItems_fixed
  induction t with
  | null => intro hval s; rfl
  | node d c0 c1 c2 nx ih0 ih1 ih2 ihn =>
    intro hval s
    rcases d with ⟨ty, vt, vk, iv, sv, nf⟩
    rw [genCodeFromASTree, generatedNodes]
    cases ty <;>
      simp only [getUniqueLabelID] <;>
      (try split_ifs) <;>
      simp [sentinelItems_append, sentinelItems_cons, sentinelItems_grabStrings,
        List.countP_cons, List.countP_append, isUngeneratedKind, hasNoGenCase,
        ih0, ih1, ih2, ihn, f1, f2, f3, f4, f5, f6, f7, f8, unknownNodeLine] <;>
      (exfalso; simp_all)

/-- C20: among the items written by the generator the placeholder line `Unknown AST node!`
occurs once for every generated node whose kind is IfThenElse or is not one of the 14 defined
kinds, and never for a node of another kind; such a node writes its indentation and the
placeholder line, nothing for its children, leaves the globals unchanged, and generation
continues with its `next` chain. -/
theorem C20_unknown_node_placeholder (t : ASTNode) (hval : Int) (s : GenState) :
    sentinelItems (genCodeFromASTree t hval s).2
      = (generatedNodes t).countP isUngeneratedKind
    ∧ (∀ (d : NodeData) (c0 c1 c2 nx : ASTNode), hasNoGenCase d.type = true →
        genCodeFromASTree (.node d c0 c1 c2 nx) hval s
          = ((genCodeFromASTree nx 0 s).1,
             [Asm.indent (levelPrefix hval), Asm.txt unknownNodeLine]
               ++ (genCodeFromASTree nx 0 s).2))
    ∧ (∀ (d : NodeData) (c0 c1 c2 nx : ASTNode), hasNoGenCase d.type = false →
        sentinelItems (genCodeFromASTree (.node d c0 c1 c2 nx) hval s).2
          = (generatedNodes (.node d c0 c1 c2 nx)).tail.countP isUngeneratedKind)
    ∧ (∀ k : ASTNodeType, hasNoGenCase k = true ↔
        (k = .AST_IFTHENELSE ∨ isDefinedKind k = false)) := by
  refine ⟨sentinelItems_gen t hval s, fun d c0 c1 c2 nx h => ?_, fun d c0 c1 c2 nx h => ?_,
    fun k => ?_⟩
  · rcases d with ⟨ty, vt, vk, iv, sv, nf⟩
    cases ty <;> simp only [hasNoGenCase, Bool.false_eq_true] at h
    · rw [genCodeFromASTree]
      rfl
    · rw [genCodeFromASTree]
      rfl
  · rw [sentinelItems_gen, generatedNodes]
    simp [List.countP_cons, isUngeneratedKind, h]
  · cases k <;> simp [hasNoGenCase, isDefinedKind]

/-- The output for an IfThenElse node with three children and a successor: the placeholder,
nothing for the children, then the successor's code. -/
theorem genCode_ifThenElseSample :
    (genCodeFromASTree ifThenElseSample 0 initState).2
      = [Asm.indent "", Asm.txt "Unknown AST node!\n", Asm.indent "", Asm.li .t0 3] := by
  decide

/-! ## Writes to the string table -/

set_option maxRecDepth 100000 in
/-- The program of 101 literals: the last of its table writes is at index 100, outside the
table. -/
theorem tableWrites_tooManyLiterals :
    (stringLits tooManyLiterals).length = 101
    ∧ (tableWrites (genCodeFromASTree tooManyLiterals 0 initState).2).getLast? = some 100 := by
  decide

end Astree
